import Mathlib

/-!
# Restaurant inspections: a shallow embedding of `Restaurant-Inspections.cpp`

The development follows the source file top to bottom: the `Date` value and its
comparison operators, the `Restaurant` record, the stream primitives the loader
relies on (`getline`, `operator>>` for `int` and `char`), `load_data`, and the four
reports `displayOverAllInfo`, `displayRiskPercentages`,
`displayPassingNumbersByNeighborhood` and `searchRestaurantByName`, each as a
transformer of the formatting state and text of `cout`.

Conventions.
* A `std::string` is a `List Char`.
* A C++ `int` is an `Int`; where the source converts to `int` or increments an
  `int` counter the result is wrapped to 32 bits by `toInt32`.
* An input stream that is only ever tested through `operator bool` is the list
  of characters not yet consumed; an extraction returns `none` exactly when the
  C++ extraction sets `failbit`.
* A `double` is an IEEE 754 binary64 value: a finite value is the rational number it
  stands for, and every arithmetic result is rounded to nearest, ties to even.
-/

namespace RestaurantInspections

/-! ## Date (source lines 23-67) -/

/-- Calendar date as stored by the source class `Date`; the field order is the
constructor order `Date(day, month, year)`. -/
structure Date where
  day : Int
  month : Int
  year : Int
deriving DecidableEq

namespace Date

/-- Source `Date::isLeapYear`; `%` on `int` truncates toward zero, which is `Int.tmod`. -/
def isLeapYear (d : Date) : Bool :=
  if (d.year.tmod 4 = 0 ∧ d.year.tmod 100 ≠ 0) ∨ d.year.tmod 400 = 0 then true else false

/-- Source `Date::operator<`: the five statements of the body, in order. -/
def lt (self other : Date) : Bool :=
  if self.year < other.year then true
  else if self.year > other.year then false
  else if self.month < other.month then true
  else if self.month > other.month then false
  else decide (self.day < other.day)

/-- Source `Date::operator>`: `other < *this`. -/
def gt (self other : Date) : Bool :=
  lt other self

/-- Source `Date::operator==`. -/
def eq (self other : Date) : Bool :=
  decide (self.day = other.day) && decide (self.month = other.month) &&
    decide (self.year = other.year)

end Date

/-! ## Restaurant (source lines 75-114) -/

/-- Source class `Restaurant`: one inspection record, fields in constructor order. -/
structure Restaurant where
  name : List Char
  address : List Char
  inspectionDate : Date
  risk : Char
  result : List Char
  neighborhood : List Char
deriving DecidableEq

/-! ## Input-stream primitives used by `load_data` -/

/-- Whitespace skipped by formatted extraction: `std::isspace` in the default "C" locale. -/
def isSpace (c : Char) : Bool :=
  c == ' ' || c == '\t' || c == '\n' || c == Char.ofNat 11 || c == Char.ofNat 12 || c == '\r'

/-- Library `std::getline(stream, field, delim)` on the unread characters `ss`.
Characters are moved into the field up to the first `delim`, which is consumed and
dropped, or up to the end of the input. `failbit` is set (result `none`) exactly when
nothing at all is extracted, that is when no unread character is left. The second
component is what remains unread. -/
def getline (ss : List Char) (delim : Char) : Option (List Char × List Char) :=
  match ss with
  | [] => none
  | _ :: _ =>
    some (ss.takeWhile (fun c => c != delim), (ss.dropWhile (fun c => c != delim)).drop 1)

/-- Library `stream >> ch` for a `char`: skip leading whitespace, then take one
character; fails when the input ends first. -/
def extractChar (is : List Char) : Option (Char × List Char) :=
  match is.dropWhile isSpace with
  | [] => none
  | c :: rest => some (c, rest)

/-- Largest value of a 32-bit `int`. -/
def INT_MAX : Int := 2147483647

/-- Smallest value of a 32-bit `int`. -/
def INT_MIN : Int := -2147483648

/-- Value of a decimal digit character. -/
def digitVal (c : Char) : Nat :=
  c.toNat - 48

/-- Value of a run of decimal digits, most significant first. -/
def digitsVal (ds : List Char) : Nat :=
  ds.foldl (fun acc c => acc * 10 + digitVal c) 0

/-- The digit run of `stream >> n`: the longest run of decimal digits is consumed
(also when the value overflows); no digit at all, or a value outside the range of
`int`, sets `failbit`. -/
def extractDigits (negative : Bool) (s : List Char) : Option (Int × List Char) :=
  let digits := s.takeWhile Char.isDigit
  if digits = [] then none
  else
    let v : Int := if negative then -(digitsVal digits : Int) else (digitsVal digits : Int)
    if INT_MIN ≤ v ∧ v ≤ INT_MAX then some (v, s.dropWhile Char.isDigit) else none

/-- Library `stream >> n` for an `int` with the default flags (`skipws`, `dec`):
skip leading whitespace, accept one optional sign, then the digit run. -/
def extractInt (is : List Char) : Option (Int × List Char) :=
  match is.dropWhile isSpace with
  | [] => none
  | c :: rest =>
    if c = '-' then extractDigits true rest
    else if c = '+' then extractDigits false rest
    else extractDigits false (c :: rest)

/-! ## load_data (source lines 119-166) -/

/-- Source lines 146-154: the date field is read as
`dateStream >> month >> delimiter >> day >> delimiter >> year && delimiter == '-'`.
Both delimiter extractions store into the same variable, so the final comparison
sees the second delimiter only. -/
def parseDate (dateStr : List Char) : Option Date :=
  match extractInt dateStr with
  | none => none
  | some (month, s1) =>
    match extractChar s1 with
    | none => none
    | some (_, s2) =>
      match extractInt s2 with
      | none => none
      | some (day, s3) =>
        match extractChar s3 with
        | none => none
        | some (delimiter, s4) =>
          match extractInt s4 with
          | none => none
          | some (year, _) =>
            if delimiter = '-' then some (Date.mk day month year) else none

/-- The six raw fields of one line. -/
structure Fields where
  name : List Char
  address : List Char
  dateStr : List Char
  riskStr : List Char
  result : List Char
  neighborhood : List Char
deriving DecidableEq

/-- Source lines 135-143: the chain of six `getline` calls joined by `&&`; the
first five stop at a comma, the sixth at a newline. -/
def splitFields (line : List Char) : Option Fields :=
  match getline line ',' with
  | none => none
  | some (name, ss1) =>
    match getline ss1 ',' with
    | none => none
    | some (address, ss2) =>
      match getline ss2 ',' with
      | none => none
      | some (dateStr, ss3) =>
        match getline ss3 ',' with
        | none => none
        | some (riskStr, ss4) =>
          match getline ss4 ',' with
          | none => none
          | some (result, ss5) =>
            match getline ss5 '\n' with
            | none => none
            | some (neighborhood, _) =>
              some (Fields.mk name address dateStr riskStr result neighborhood)

/-- Body of the `while` loop of `load_data` (source lines 131-163) as a transformer
of the vector `restaurants`. The two diagnostics written to `cerr` do not influence
the vector and are left out. `riskStr[0]` of an empty string is the terminating
null character. -/
def load_data_step (restaurants : List Restaurant) (line : List Char) : List Restaurant :=
  match splitFields line with
  | none => restaurants
  | some f =>
    match parseDate f.dateStr with
    | none => restaurants
    | some inspectionDate =>
      let risk : Char := f.riskStr.headD (Char.ofNat 0)
      restaurants ++ [Restaurant.mk f.name f.address inspectionDate risk f.result f.neighborhood]

/-- Source `load_data`. The file is given as `none` when it cannot be opened and
otherwise as the sequence of lines that the successive `getline(file, line)` calls
deliver. -/
def load_data (datafile : Option (List (List Char))) : List Restaurant :=
  match datafile with
  | none => []
  | some lines => lines.foldl load_data_step []

/-! ## Output-stream formatting state -/

/-- The part of the state of `cout` that the program reads or writes: the text
emitted so far, the pending field width, the fill character, whether `left`
adjustment is selected, and the floating-point settings `fixed` / `precision`. -/
structure OStream where
  out : List Char
  width : Nat
  fill : Char
  left : Bool
  fixed : Bool
  precision : Nat
deriving DecidableEq

/-- State of `cout` at program start. -/
def OStream.initial : OStream :=
  OStream.mk [] 0 ' ' false false 6

/-- Decimal digit character of a number below ten. -/
def digitChar (n : Nat) : Char :=
  Char.ofNat (48 + n)

/-- Decimal numeral of a natural number, by repeated division; `fuel` bounds the
number of digits produced. -/
def decimalAux : Nat → Nat → List Char → List Char
  | 0, _, acc => acc
  | fuel + 1, n, acc =>
    if n < 10 then digitChar n :: acc
    else decimalAux fuel (n / 10) (digitChar (n % 10) :: acc)

/-- Decimal numeral of a natural number without leading zeros. -/
def decimal (n : Nat) : List Char :=
  decimalAux (n + 1) n []

/-- Text that `cout << n` produces for an `int` before padding. -/
def showInt (n : Int) : List Char :=
  if n < 0 then '-' :: decimal n.natAbs else decimal n.natAbs

/-- Padding of a formatted output item to a field width: fill characters are added
after the text under `left` adjustment and before it otherwise. -/
def pad (width : Nat) (fill : Char) (left : Bool) (s : List Char) : List Char :=
  let padding := List.replicate (width - s.length) fill
  if left then s ++ padding else padding ++ s

namespace OStream

/-- Formatted insertion of a piece of text: pad with the fill character up to the
pending width (on the right of the text under `left`, else on its left), then reset
the width to zero. -/
def put (os : OStream) (s : List Char) : OStream :=
  { os with out := os.out ++ pad os.width os.fill os.left s, width := 0 }

/-- Insertion `cout << "text"`. -/
def str (os : OStream) (s : String) : OStream :=
  os.put s.toList

/-- Insertion `cout << n` for an `int`. -/
def int (os : OStream) (n : Int) : OStream :=
  os.put (showInt n)

/-- Manipulator `endl`: write a newline, unformatted. -/
def endl (os : OStream) : OStream :=
  { os with out := os.out ++ ['\n'] }

/-- Manipulator `setw(n)`. -/
def setw (os : OStream) (n : Nat) : OStream :=
  { os with width := n }

/-- Manipulator `setfill(c)`. -/
def setfill (os : OStream) (c : Char) : OStream :=
  { os with fill := c }

/-- Manipulator `left`: select left adjustment. -/
def setLeft (os : OStream) : OStream :=
  { os with left := true }

/-- Manipulator `fixed`: select fixed-point notation for floating-point output. -/
def setFixed (os : OStream) : OStream :=
  { os with fixed := true }

/-- Manipulator `setprecision(n)`. -/
def setprecision (os : OStream) (n : Nat) : OStream :=
  { os with precision := n }

end OStream

/-! ## displayOverAllInfo (source lines 170-196) -/

/-- Conversion of an integer to a 32-bit `int` by wrap-around. -/
def toInt32 (n : Int) : Int :=
  (n + 2147483648) % 4294967296 - 2147483648

/-- Local variables of `displayOverAllInfo` that the loop updates. -/
structure OverallState where
  passedRestaurants : Int
  mostRecentPassedRestaurantName : List Char
  mostRecentPassedDate : Date
deriving DecidableEq

/-- Values of the locals before the loop (source lines 172-174). -/
def OverallState.init : OverallState :=
  OverallState.mk 0 [] (Date.mk 1 1 2000)

/-- The test of source line 177: the result is exactly "Pass" or exactly
"Conditional". -/
def passedOrConditional (restaurant : Restaurant) : Bool :=
  restaurant.result == "Pass".toList || restaurant.result == "Conditional".toList

/-- Body of the loop of `displayOverAllInfo` (source lines 177-184). -/
def overallStep (st : OverallState) (restaurant : Restaurant) : OverallState :=
  if passedOrConditional restaurant = true then
    let passedRestaurants := toInt32 (st.passedRestaurants + 1)
    if Date.gt restaurant.inspectionDate st.mostRecentPassedDate = true then
      OverallState.mk passedRestaurants restaurant.name restaurant.inspectionDate
    else
      OverallState.mk passedRestaurants st.mostRecentPassedRestaurantName
        st.mostRecentPassedDate
  else st

/-- The loop of `displayOverAllInfo` (source lines 176-185). -/
def overallScan (restaurants : List Restaurant) : OverallState :=
  restaurants.foldl overallStep OverallState.init

/-- Source lines 187-188: the two count lines. -/
def printCounts (cout : OStream) (totalRestaurants passedRestaurants : Int) : OStream :=
  let cout := ((cout.str "Number of restaurants: ").int totalRestaurants).endl
  ((cout.str "Number that pass: ").int passedRestaurants).endl

/-- Source line 191: the line written when no name was recorded. -/
def printNoRecent (cout : OStream) : OStream :=
  (cout.str "No recent passing inspections found.").endl

/-- Source lines 193-194: the line naming the most recent passing inspection. Only
the month is preceded by `setw(2)`; `setfill` stays in force afterwards. -/
def printMostRecent (cout : OStream) (name : List Char) (date : Date) : OStream :=
  let cout := (cout.str "Most recent passing inspection was of ").put name
  let cout := cout.str " on "
  let cout := (((cout.setfill '0').setw 2).int date.month).str "-"
  let cout := (cout.int date.day).str "-"
  (cout.int date.year).endl

/-- Source `displayOverAllInfo`, as a transformer of the state of `cout`. -/
def displayOverAllInfo (cout : OStream) (restaurants : List Restaurant) : OStream :=
  let totalRestaurants : Int := toInt32 restaurants.length
  let st := overallScan restaurants
  let cout := printCounts cout totalRestaurants st.passedRestaurants
  if st.mostRecentPassedRestaurantName.isEmpty then
    printNoRecent cout
  else
    printMostRecent cout st.mostRecentPassedRestaurantName st.mostRecentPassedDate

/-! ## Double-precision arithmetic -/

/-- Values of the type `double` (IEEE 754 binary64). A finite value is kept as the
rational number it stands for (the sign of a zero is not kept); infinities and NaNs
carry their sign. -/
inductive Double where
  | finite (value : ℚ)
  | inf (negative : Bool)
  | nan (negative : Bool)
deriving DecidableEq

/-- Largest integer `e` with `2 ^ e ≤ n / d`, for positive `n` and `d`. -/
def floorLog2 (n d : Nat) : Int :=
  if d * 2 ^ n.log2 ≤ n * 2 ^ d.log2 then (n.log2 : Int) - (d.log2 : Int)
  else (n.log2 : Int) - (d.log2 : Int) - 1

/-- Rounding of a rational number to the nearest integer, ties to the even one. -/
def roundHalfEven (q : ℚ) : Int :=
  if q - ⌊q⌋ < 1 / 2 then ⌊q⌋
  else if 1 / 2 < q - ⌊q⌋ then ⌊q⌋ + 1
  else if ⌊q⌋ % 2 = 0 then ⌊q⌋ else ⌊q⌋ + 1

namespace Double

/-- Rounding of an exact result to binary64 in the default mode (to nearest, ties to
even): 53 significant bits, the exponent of the last place not below -1074, and
infinity when the rounded magnitude reaches `2 ^ 1024`. -/
def round (x : ℚ) : Double :=
  if x = 0 then finite 0
  else
    let e : Int := floorLog2 x.num.natAbs x.den
    let k : Int := max (e - 52) (-1074)
    let y : ℚ := (roundHalfEven (x / 2 ^ k) : ℚ) * 2 ^ k
    if (2 : ℚ) ^ (1024 : Int) ≤ |y| then inf (decide (x < 0)) else finite y

/-- The NaN delivered by an invalid operation such as `0.0 / 0.0`; on x86-64 its sign
bit is set. -/
def invalid : Double :=
  nan true

/-- Conversion `static_cast<double>(n)` of an `int`, which is exact. -/
def ofInt (n : Int) : Double :=
  finite (n : ℚ)

/-- Division of two `double` values. A NaN operand is passed on, `0 / 0` and
`inf / inf` are invalid, a non-zero finite value divided by zero is an infinity. -/
def div : Double → Double → Double
  | nan s, _ => nan s
  | finite _, nan s => nan s
  | inf _, nan s => nan s
  | inf _, inf _ => invalid
  | inf s, finite b => inf (s != decide (b < 0))
  | finite _, inf _ => finite 0
  | finite a, finite b =>
    if b = 0 then (if a = 0 then invalid else inf (decide (a < 0)))
    else round (a / b)

/-- Multiplication of two `double` values. A NaN operand is passed on, and zero times
an infinity is invalid. -/
def mul : Double → Double → Double
  | nan s, _ => nan s
  | finite _, nan s => nan s
  | inf _, nan s => nan s
  | inf s, inf t => inf (s != t)
  | inf s, finite b => if b = 0 then invalid else inf (s != decide (b < 0))
  | finite a, inf t => if a = 0 then invalid else inf (decide (a < 0) != t)
  | finite a, finite b => round (a * b)

end Double

/-- Text of a `double` in `fixed` notation with the given precision, as `printf`
writes it for `%.*f`: the exact value rounded to that many decimals, ties to even. -/
def showFixed (precision : Nat) : Double → List Char
  | Double.nan negative => if negative then "-nan".toList else "nan".toList
  | Double.inf negative => if negative then "-inf".toList else "inf".toList
  | Double.finite q =>
    let n : Nat := (roundHalfEven (|q| * 10 ^ precision)).natAbs
    let whole := decimal (n / 10 ^ precision)
    let frac := decimal (n % 10 ^ precision)
    let digits :=
      if precision = 0 then whole
      else whole ++ '.' :: (List.replicate (precision - frac.length) '0' ++ frac)
    if q < 0 then '-' :: digits else digits

/-- Insertion `cout << x` for a `double` in `fixed` notation, the only notation in
which the program writes a `double`. -/
def OStream.double (os : OStream) (x : Double) : OStream :=
  os.put (showFixed os.precision x)

/-! ## displayRiskPercentages (source lines 199-229) -/

/-- The three counters of `displayRiskPercentages` (source lines 201-203). -/
structure RiskCounts where
  highRiskCount : Int
  mediumRiskCount : Int
  lowRiskCount : Int
deriving DecidableEq

/-- Body of the counting loop (source lines 207-214). -/
def riskStep (st : RiskCounts) (restaurant : Restaurant) : RiskCounts :=
  let risk := restaurant.risk
  if risk = 'H' then { st with highRiskCount := toInt32 (st.highRiskCount + 1) }
  else if risk = 'M' then { st with mediumRiskCount := toInt32 (st.mediumRiskCount + 1) }
  else if risk = 'L' then { st with lowRiskCount := toInt32 (st.lowRiskCount + 1) }
  else st

/-- The counting loop (source lines 206-215). -/
def riskCounts (restaurants : List Restaurant) : RiskCounts :=
  restaurants.foldl riskStep (RiskCounts.mk 0 0 0)

/-- Source line 218: the sum of the three counters, as `int` additions. -/
def totalInspections (c : RiskCounts) : Int :=
  toInt32 (toInt32 (c.highRiskCount + c.mediumRiskCount) + c.lowRiskCount)

/-- Source lines 221-223: `static_cast<double>(count) / totalInspections * 100.0`. -/
def riskPercentage (count total : Int) : Double :=
  Double.mul (Double.div (Double.ofInt count) (Double.ofInt total)) (Double.finite 100)

/-- One output line of source lines 226-228: a label, the percentage in `fixed`
notation with precision 1, a percent sign and a newline. -/
def printRisk (cout : OStream) (label : String) (percentage : Double) : OStream :=
  (((((cout.str label).setFixed).setprecision 1).double percentage).str "%").endl

/-- Source `displayRiskPercentages`, as a transformer of the state of `cout`. -/
def displayRiskPercentages (cout : OStream) (restaurants : List Restaurant) : OStream :=
  let c := riskCounts restaurants
  let total := totalInspections c
  let highRiskPercentage := riskPercentage c.highRiskCount total
  let mediumRiskPercentage := riskPercentage c.mediumRiskCount total
  let lowRiskPercentage := riskPercentage c.lowRiskCount total
  let cout := printRisk cout "High Risk: " highRiskPercentage
  let cout := printRisk cout "Medium Risk: " mediumRiskPercentage
  printRisk cout "Low Risk: " lowRiskPercentage

/-! ## displayPassingNumbersByNeighborhood (source lines 232-265) -/

/-- Body of the first loop (source lines 237-240): a neighborhood that `find` does
not locate among those collected so far is appended. -/
def uniqueStep (uniqueNeighborhoods : List (List Char)) (restaurant : Restaurant) :
    List (List Char) :=
  if restaurant.neighborhood ∈ uniqueNeighborhoods then uniqueNeighborhoods
  else uniqueNeighborhoods ++ [restaurant.neighborhood]

/-- The first loop (source lines 233-241): the vector `uniqueNeighborhoods`. -/
def uniqueNeighborhoods (restaurants : List Restaurant) : List (List Char) :=
  restaurants.foldl uniqueStep []

/-- The three counters of one table row (source line 248). -/
structure NeighborhoodCounts where
  passed : Int
  condPassed : Int
  failed : Int
deriving DecidableEq

/-- Body of the inner loop (source lines 251-259). -/
def countStep (neighborhood : List Char) (st : NeighborhoodCounts) (restaurant : Restaurant) :
    NeighborhoodCounts :=
  if restaurant.neighborhood = neighborhood then
    if restaurant.result = "Pass".toList then
      { st with passed := toInt32 (st.passed + 1) }
    else if restaurant.result = "Conditional".toList then
      { st with condPassed := toInt32 (st.condPassed + 1) }
    else if restaurant.result = "Fail".toList then
      { st with failed := toInt32 (st.failed + 1) }
    else st
  else st

/-- The inner loop (source lines 248-260) for one neighborhood. -/
def neighborhoodCounts (restaurants : List Restaurant) (neighborhood : List Char) :
    NeighborhoodCounts :=
  restaurants.foldl (countStep neighborhood) (NeighborhoodCounts.mk 0 0 0)

/-- Source lines 262-263: one table row. The manipulator `left` is applied first and
stays in force; the fill character is whatever the stream carries. -/
def printRow (cout : OStream) (neighborhood : List Char) (c : NeighborhoodCounts) : OStream :=
  let cout := ((cout.setLeft).setw 30).put neighborhood
  let cout := (cout.setw 11).int c.passed
  let cout := (cout.setw 13).int c.condPassed
  let cout := (cout.setw 9).int c.failed
  cout.endl

/-- Source lines 244-245: the two heading lines of the table. -/
def printTableHead (cout : OStream) : OStream :=
  let cout := (cout.str "Neighborhood               Passed Cond. Pass     Failed").endl
  (cout.str "============               ====== ==========     ======").endl

/-- The rows of the table as values: each collected neighborhood with its counters,
in the order of the outer loop (source line 247). -/
def neighborhoodRows (restaurants : List Restaurant) : List (List Char × NeighborhoodCounts) :=
  (uniqueNeighborhoods restaurants).map (fun neighborhood =>
    (neighborhood, neighborhoodCounts restaurants neighborhood))

/-- Source `displayPassingNumbersByNeighborhood`, as a transformer of the state of
`cout`. -/
def displayPassingNumbersByNeighborhood (cout : OStream) (restaurants : List Restaurant) :
    OStream :=
  (neighborhoodRows restaurants).foldl (fun cout row => printRow cout row.1 row.2)
    (printTableHead cout)

/-- Text of one table row as source lines 262-263 write it under the fill character
`fill`: four left-adjusted fields of widths 30, 11, 13 and 9 and a newline. -/
def rowText (fill : Char) (neighborhood : List Char) (c : NeighborhoodCounts) : List Char :=
  pad 30 fill true neighborhood ++ pad 11 fill true (showInt c.passed) ++
    pad 13 fill true (showInt c.condPassed) ++ pad 9 fill true (showInt c.failed) ++ ['\n']

/-! ## searchRestaurantByName (source lines 268-298) -/

/-- The call `transform(s.begin(), s.end(), s.begin(), ::tolower)` in the default "C"
locale: the letters A to Z are mapped to a to z, every other character is kept. -/
def transformToLower (s : List Char) : List Char :=
  s.map Char.toLower

/-- Search of `needle` in `haystack` from its start, counting positions from `pos`. -/
def findFrom : List Char → List Char → Nat → Option Nat
  | [], needle, pos => if needle = [] then some pos else none
  | c :: cs, needle, pos =>
    if needle.isPrefixOf (c :: cs) = true then some pos else findFrom cs needle (pos + 1)

/-- Library `haystack.find(needle)`: the position of the first occurrence of `needle`
as a contiguous run of characters, `none` standing for `string::npos`. -/
def find (haystack needle : List Char) : Option Nat :=
  findFrom haystack needle 0

/-- Source lines 288-289: the inspection date line of a match. Month and day are each
preceded by `setfill('0')` and `setw(2)`. -/
def printInspectionDate (cout : OStream) (date : Date) : OStream :=
  let cout := cout.str "Inspection Date: "
  let cout := (((cout.setfill '0').setw 2).int date.month).str "-"
  let cout := (((cout.setfill '0').setw 2).int date.day).str "-"
  (cout.int date.year).endl

/-- Source lines 286-291: the block written for one matching record. -/
def printMatch (cout : OStream) (restaurant : Restaurant) : OStream :=
  let cout := ((cout.str "Restaurant: ").put restaurant.name).endl
  let cout := ((cout.str "Address: ").put restaurant.address).endl
  let cout := printInspectionDate cout restaurant.inspectionDate
  let cout := ((cout.str "Inspection Result: ").put restaurant.result).endl
  cout.endl

/-- The test of source line 284 for one record: the lower-cased name contains the
lower-cased search text. -/
def nameMatches (nameToSearch : List Char) (restaurant : Restaurant) : Bool :=
  (find (transformToLower restaurant.name) (transformToLower nameToSearch)).isSome

/-- Body of the loop of `searchRestaurantByName` (source lines 279-292) on the pair
of the flag `found` and the state of `cout`. -/
def searchStep (nameToSearch : List Char) (st : Bool × OStream) (restaurant : Restaurant) :
    Bool × OStream :=
  if nameMatches nameToSearch restaurant = true then (true, printMatch st.2 restaurant)
  else st

/-- Source `searchRestaurantByName`, as a transformer of the state of `cout`. The
text of the search, read from `cin` by source lines 272-273, is the argument
`nameToSearch`. -/
def searchRestaurantByName (cout : OStream) (restaurants : List Restaurant)
    (nameToSearch : List Char) : OStream :=
  let cout := cout.str "Enter restaurant to search for: "
  let st := restaurants.foldl (searchStep nameToSearch) (false, cout)
  if st.1 = false then (st.2.str "No matching restaurants found.").endl else st.2

/-- Text of the block written for one matching record when the stream is in left
adjustment or not. -/
def matchText (left : Bool) (restaurant : Restaurant) : List Char :=
  "Restaurant: ".toList ++ restaurant.name ++ ['\n'] ++
    "Address: ".toList ++ restaurant.address ++ ['\n'] ++
    "Inspection Date: ".toList ++ pad 2 '0' left (showInt restaurant.inspectionDate.month) ++
    "-".toList ++ pad 2 '0' left (showInt restaurant.inspectionDate.day) ++
    "-".toList ++ showInt restaurant.inspectionDate.year ++ ['\n'] ++
    "Inspection Result: ".toList ++ restaurant.result ++ ['\n'] ++ ['\n']

/-- Position in file order of the first record of the given neighborhood (the number
of records when there is none). -/
def firstOccurrence (restaurants : List Restaurant) (neighborhood : List Char) : Nat :=
  restaurants.findIdx (fun r => decide (r.neighborhood = neighborhood))

/-- The zero-padded date text `MM-DD-YYYY` of the input format for a month and a
day below 100 and a four-digit year, written digit by digit. -/
def zeroPaddedDateText (m d y : Nat) : List Char :=
  [digitChar (m / 10), digitChar (m % 10), '-', digitChar (d / 10), digitChar (d % 10), '-',
    digitChar (y / 1000), digitChar (y / 100 % 10), digitChar (y / 10 % 10), digitChar (y % 10)]

/-- Selects the records whose risk code is exactly the given character. -/
def hasRisk (code : Char) (restaurant : Restaurant) : Bool :=
  decide (restaurant.risk = code)

/-- Selects the records whose risk code is one of 'H', 'M' and 'L'. -/
def eligibleRisk (restaurant : Restaurant) : Bool :=
  hasRisk 'H' restaurant || hasRisk 'M' restaurant || hasRisk 'L' restaurant

/-- The text that a call appended to the output: what `after` holds beyond what
`before` already held. -/
def emitted (before after : OStream) : List Char :=
  after.out.drop before.out.length

/-! ## Sample inputs used to exercise the definitions -/

/-- Record loaded from a line whose name field is empty. -/
def sampleUnnamed : Restaurant :=
  Restaurant.mk [] "123 Main St".toList (Date.mk 17 5 2022) 'H' "Pass".toList "Downtown".toList

/-- Two passing records dated 2019-01-01 and 2021-06-15. -/
def sampleTwoPasses : List Restaurant :=
  [Restaurant.mk "Old Cafe".toList "1 Elm St".toList (Date.mk 1 1 2019) 'L' "Pass".toList
      "Uptown".toList,
    Restaurant.mk "New Cafe".toList "2 Elm St".toList (Date.mk 15 6 2021) 'M' "Pass".toList
      "Uptown".toList]

/-- First of two passing records that share the latest date. -/
def sampleTieFirst : Restaurant :=
  Restaurant.mk "Alpha".toList "1 Oak Ave".toList (Date.mk 17 5 2022) 'H' "Pass".toList
    "Downtown".toList

/-- Second of two passing records that share the latest date. -/
def sampleTieLast : Restaurant :=
  Restaurant.mk "Beta".toList "2 Oak Ave".toList (Date.mk 17 5 2022) 'M' "Conditional".toList
    "Downtown".toList

/-- An earlier passing record. -/
def sampleEarlier : Restaurant :=
  Restaurant.mk "Gamma".toList "3 Oak Ave".toList (Date.mk 2 3 2021) 'L' "Pass".toList
    "Midtown".toList

/-- A later record that failed. -/
def sampleFailed : Restaurant :=
  Restaurant.mk "Delta".toList "4 Oak Ave".toList (Date.mk 9 9 2023) 'L' "Fail".toList
    "Midtown".toList

/-- Five records in three neighborhoods: Downtown (Pass, Conditional), Uptown (Fail,
Fail) and Midtown (a result that is none of the three known texts). -/
def sampleTable : List Restaurant :=
  [Restaurant.mk "Joes Diner".toList "123 Main St".toList (Date.mk 17 5 2022) 'H' "Pass".toList
      "Downtown".toList,
    Restaurant.mk "JOES GRILL".toList "1 Main St".toList (Date.mk 7 5 2021) 'M' "Fail".toList
      "Uptown".toList,
    Restaurant.mk "Moe".toList "2 Oak Ave".toList (Date.mk 2 1 2020) 'L' "Conditional".toList
      "Downtown".toList,
    Restaurant.mk "Zed".toList "3 Oak Ave".toList (Date.mk 2 1 2020) 'X' "Fail".toList
      "Uptown".toList,
    Restaurant.mk "Quinn".toList "4 Oak Ave".toList (Date.mk 2 1 2020) 'H' "Closed".toList
      "Midtown".toList]

/-- Record named "Joe's Diner". -/
def sampleDiner : Restaurant :=
  Restaurant.mk "Joe's Diner".toList "123 Main St".toList (Date.mk 17 5 2022) 'H' "Pass".toList
    "Downtown".toList

/-- Record named "JOE'S GRILL". -/
def sampleGrill : Restaurant :=
  Restaurant.mk "JOE'S GRILL".toList "1 Main St".toList (Date.mk 7 5 2021) 'M' "Fail".toList
    "Uptown".toList

/-- Record whose name does not contain "joe". -/
def sampleOther : Restaurant :=
  Restaurant.mk "Moe".toList "2 Oak Ave".toList (Date.mk 2 1 2020) 'L' "Conditional".toList
    "Downtown".toList

/-- Record with the given risk code and nothing else of interest. -/
def sampleWithRisk (code : Char) : Restaurant :=
  Restaurant.mk "Cafe".toList "5 Elm St".toList (Date.mk 3 4 2021) code "Pass".toList
    "Uptown".toList

/-- Two records of risk 'H', one of risk 'M', one of risk 'L', and one with the
unknown code 'X'. -/
def sampleRisks : List Restaurant :=
  [sampleWithRisk 'H', sampleWithRisk 'X', sampleWithRisk 'H', sampleWithRisk 'M',
    sampleWithRisk 'L']

/-- Record loaded from the line "Joes Diner,123 Main St,05-07-2022,H,Pass,Downtown". -/
def sampleMay : Restaurant :=
  Restaurant.mk "Joes Diner".toList "123 Main St".toList (Date.mk 7 5 2022) 'H' "Pass".toList
    "Downtown".toList

/-! ## Theorems -/

/-- Characterisation of `operator<` used by all order proofs. -/
theorem Date.lt_iff (a b : Date) :
    Date.lt a b = true ↔
      a.year < b.year ∨ (a.year = b.year ∧ (a.month < b.month ∨
        (a.month = b.month ∧ a.day < b.day))) := by
  unfold Date.lt
  constructor
  · intro h
    split_ifs at h with h1 h2 h3 h4
    · exact Or.inl h1
    · exact Or.inr ⟨by omega, Or.inl h3⟩
    · exact Or.inr ⟨by omega, Or.inr ⟨by omega, by simpa using h⟩⟩
  · intro h
    split_ifs with h1 h2 h3 h4
    · rfl
    · omega
    · rfl
    · omega
    · simp only [decide_eq_true_eq]; omega

/-- Claim C1: `Date::operator<` is true exactly when the (year, month, day) triple of
the left date is lexicographically smaller than that of the right date, `operator>`
is its converse, and `Date(5,3,2020) < Date(6,3,2020)` holds. -/
theorem C1_date_lt_lexicographic :
    (∀ a b : Date, Date.lt a b = true ↔
        a.year < b.year ∨ (a.year = b.year ∧ (a.month < b.month ∨
          (a.month = b.month ∧ a.day < b.day)))) ∧
    (∀ a b : Date, Date.gt a b = Date.lt b a) ∧
    Date.lt (Date.mk 5 3 2020) (Date.mk 6 3 2020) = true :=
  ⟨Date.lt_iff, fun _ _ => rfl, by decide⟩

/-- Characterisation of a false `operator<`. -/
theorem Date.lt_eq_false_iff (a b : Date) :
    Date.lt a b = false ↔
      ¬ (a.year < b.year ∨ (a.year = b.year ∧ (a.month < b.month ∨
        (a.month = b.month ∧ a.day < b.day)))) := by
  rw [← Date.lt_iff, Bool.not_eq_true]

/-- Source `operator==` agrees with equality of the three fields. -/
theorem Date.eq_iff (a b : Date) :
    Date.eq a b = true ↔ a.day = b.day ∧ a.month = b.month ∧ a.year = b.year := by
  simp [Date.eq, and_assoc]

/-- Claim C2: the comparison operators form a strict total order. `operator<` is
irreflexive and transitive, exactly one of `a < b`, `a == b`, `a > b` holds for any
two dates, and `a == b` holds exactly when day, month and year all agree. -/
theorem C2_date_strict_total_order :
    (∀ a : Date, Date.lt a a = false) ∧
    (∀ a b c : Date, Date.lt a b = true → Date.lt b c = true → Date.lt a c = true) ∧
    (∀ a b : Date,
      (Date.lt a b = true ∧ Date.eq a b = false ∧ Date.gt a b = false) ∨
      (Date.lt a b = false ∧ Date.eq a b = true ∧ Date.gt a b = false) ∨
      (Date.lt a b = false ∧ Date.eq a b = false ∧ Date.gt a b = true)) ∧
    (∀ a b : Date,
      Date.eq a b = true ↔ a.day = b.day ∧ a.month = b.month ∧ a.year = b.year) := by
  refine ⟨?_, ?_, ?_, Date.eq_iff⟩
  · intro a
    rw [Date.lt_eq_false_iff]
    omega
  · intro a b c hab hbc
    rw [Date.lt_iff] at hab hbc ⊢
    omega
  · intro a b
    have e1 := Date.lt_iff a b
    have e2 := Date.lt_iff b a
    have e3 := Date.eq_iff a b
    unfold Date.gt
    cases h1 : Date.lt a b <;> cases h2 : Date.lt b a <;> cases h3 : Date.eq a b <;>
      simp only [h1, h2, h3, true_iff, false_iff, Bool.false_eq_true, and_self, and_true,
        and_false, or_false, or_true, false_or, true_and, reduceCtorEq] at e1 e2 e3 ⊢ <;>
      omega

/-- Concrete instance of transitivity and of the trichotomy of claim C2. -/
theorem C2_date_strict_total_order_witness :
    Date.lt (Date.mk 31 12 1999) (Date.mk 1 1 2000) = true ∧
    Date.lt (Date.mk 1 1 2000) (Date.mk 2 1 2000) = true ∧
    Date.lt (Date.mk 31 12 1999) (Date.mk 2 1 2000) = true ∧
    Date.eq (Date.mk 1 1 2000) (Date.mk 1 1 2000) = true :=
  ⟨by decide, by decide,
    C2_date_strict_total_order.2.1 (Date.mk 31 12 1999) (Date.mk 1 1 2000) (Date.mk 2 1 2000)
      (by decide) (by decide), by decide⟩

/-! ### The loader -/

/-- A `getline` fails exactly on exhausted input. -/
theorem getline_eq_none_iff (ss : List Char) (delim : Char) :
    getline ss delim = none ↔ ss = [] := by
  cases ss <;> simp [getline]

/-- When text is left after a `getline`, a delimiter was consumed. -/
theorem count_rest_lt (delim : Char) (ss : List Char) :
    (ss.dropWhile (fun c => c != delim)).drop 1 ≠ [] →
      ((ss.dropWhile (fun c => c != delim)).drop 1).count delim + 1 ≤ ss.count delim := by
  induction ss with
  | nil => simp
  | cons c cs ih =>
    by_cases hc : c = delim
    · subst hc
      intro _
      simp [List.dropWhile_cons]
    · intro h
      have hne : (c != delim) = true := by simpa using hc
      rw [List.dropWhile_cons, if_pos hne] at h ⊢
      have := ih h
      rw [List.count_cons_of_ne (Ne.symm hc)]
      exact this

/-- One successful `getline` followed by unread text uses up one delimiter. -/
theorem getline_count {ss field rest : List Char} {delim : Char}
    (h : getline ss delim = some (field, rest)) (hrest : rest ≠ []) :
    rest.count delim + 1 ≤ ss.count delim := by
  cases ss with
  | nil => simp [getline] at h
  | cons c cs =>
    simp only [getline, Option.some.injEq, Prod.mk.injEq] at h
    obtain ⟨-, h2⟩ := h
    subst h2
    exact count_rest_lt delim (c :: cs) hrest

/-- A line with fewer than five commas does not survive the chain of six `getline`s. -/
theorem splitFields_short (line : List Char) (h : line.count ',' < 5) :
    splitFields line = none := by
  unfold splitFields
  cases h1 : getline line ',' with
  | none => rfl
  | some p1 =>
    obtain ⟨f1, s1⟩ := p1
    cases h2 : getline s1 ',' with
    | none => simp [*]
    | some p2 =>
      obtain ⟨f2, s2⟩ := p2
      cases h3 : getline s2 ',' with
      | none => simp [*]
      | some p3 =>
        obtain ⟨f3, s3⟩ := p3
        cases h4 : getline s3 ',' with
        | none => simp [*]
        | some p4 =>
          obtain ⟨f4, s4⟩ := p4
          cases h5 : getline s4 ',' with
          | none => simp [*]
          | some p5 =>
            obtain ⟨f5, s5⟩ := p5
            cases h6 : getline s5 '\n' with
            | none => simp [*]
            | some p6 =>
              exfalso
              have n5 : s5 ≠ [] := fun e => by simp [e, getline] at h6
              have n4 : s4 ≠ [] := fun e => by simp [e, getline] at h5
              have n3 : s3 ≠ [] := fun e => by simp [e, getline] at h4
              have n2 : s2 ≠ [] := fun e => by simp [e, getline] at h3
              have n1 : s1 ≠ [] := fun e => by simp [e, getline] at h2
              have c1 := getline_count h1 n1
              have c2 := getline_count h2 n2
              have c3 := getline_count h3 n3
              have c4 := getline_count h4 n4
              have c5 := getline_count h5 n5
              omega

/-- A line that fails the field split leaves the vector as it was. -/
theorem load_data_step_short (restaurants : List Restaurant) (line : List Char)
    (h : line.count ',' < 5) : load_data_step restaurants line = restaurants := by
  simp [load_data_step, splitFields_short line h]

/-- Claim C3: a line with fewer than six comma-separated fields (fewer than five
commas) contributes no record and leaves the records of all other lines unchanged,
in the same order. -/
theorem C3_short_line_skipped (before after : List (List Char)) (shortLine : List Char)
    (h : shortLine.count ',' < 5) :
    load_data (some (before ++ [shortLine] ++ after)) = load_data (some (before ++ after)) ∧
    load_data (some [shortLine]) = [] := by
  constructor
  · simp only [load_data, List.foldl_append, List.foldl_cons, List.foldl_nil]
    rw [load_data_step_short _ _ h]
  · simp only [load_data, List.foldl_cons, List.foldl_nil]
    exact load_data_step_short [] shortLine h

/-- Instance of claim C3: a three-field line between two well-formed lines. -/
theorem C3_short_line_skipped_witness :
    "a,b,c".toList.count ',' < 5 ∧
    load_data (some (["Joe,1 Main St,05-17-2022,H,Pass,Downtown".toList] ++ ["a,b,c".toList] ++
      ["Moe,2 Oak Ave,01-02-2021,L,Fail,Uptown".toList])) =
    load_data (some (["Joe,1 Main St,05-17-2022,H,Pass,Downtown".toList] ++
      ["Moe,2 Oak Ave,01-02-2021,L,Fail,Uptown".toList])) ∧
    load_data (some ["a,b,c".toList]) = [] :=
  ⟨by decide, C3_short_line_skipped _ _ _ (by decide)⟩

/-- A `getline` on a comma-free field followed by the delimiter returns the field. -/
theorem getline_field (field rest : List Char) (delim : Char) (h : delim ∉ field) :
    getline (field ++ delim :: rest) delim = some (field, rest) := by
  have hp : ∀ a ∈ field, (fun c => c != delim) a = true := by
    intro a ha
    have : a ≠ delim := fun e => h (e ▸ ha)
    simpa using this
  have e : getline (field ++ delim :: rest) delim =
      some ((field ++ delim :: rest).takeWhile (fun c => c != delim),
        ((field ++ delim :: rest).dropWhile (fun c => c != delim)).drop 1) := by
    cases field <;> rfl
  rw [e, List.takeWhile_append_of_pos hp, List.dropWhile_append_of_pos hp]
  simp

/-- A `getline` on non-empty text without the delimiter returns all of it. -/
theorem getline_all (ss : List Char) (delim : Char) (hne : ss ≠ []) (h : delim ∉ ss) :
    getline ss delim = some (ss, []) := by
  have hp : ∀ a ∈ ss, (fun c => c != delim) a = true := by
    intro a ha
    have : a ≠ delim := fun e => h (e ▸ ha)
    simpa using this
  have e : getline ss delim =
      some (ss.takeWhile (fun c => c != delim), (ss.dropWhile (fun c => c != delim)).drop 1) := by
    cases ss with
    | nil => exact absurd rfl hne
    | cons _ _ => rfl
  rw [e, List.takeWhile_eq_self_iff.mpr hp, List.dropWhile_eq_nil_iff.mpr hp]
  rfl

/-- The field split of a line built from five comma-free fields and a non-empty
remainder returns exactly these six pieces. -/
theorem splitFields_line (name address dateStr riskStr result neighborhood : List Char)
    (h1 : ',' ∉ name) (h2 : ',' ∉ address) (h3 : ',' ∉ dateStr) (h4 : ',' ∉ riskStr)
    (h5 : ',' ∉ result) (hne : neighborhood ≠ []) (hnl : '\n' ∉ neighborhood) :
    splitFields (name ++ ',' :: (address ++ ',' :: (dateStr ++ ',' :: (riskStr ++ ',' ::
      (result ++ ',' :: neighborhood))))) =
      some (Fields.mk name address dateStr riskStr result neighborhood) := by
  simp [splitFields, getline_field _ _ _ h1, getline_field _ _ _ h2, getline_field _ _ _ h3,
    getline_field _ _ _ h4, getline_field _ _ _ h5, getline_all _ _ hne hnl]

/-- One well-formed line with an accepted date yields one record built from its fields. -/
theorem load_data_line (name address dateStr riskStr result neighborhood : List Char)
    (d : Date)
    (h1 : ',' ∉ name) (h2 : ',' ∉ address) (h3 : ',' ∉ dateStr) (h4 : ',' ∉ riskStr)
    (h5 : ',' ∉ result) (hne : neighborhood ≠ []) (hnl : '\n' ∉ neighborhood)
    (hd : parseDate dateStr = some d) :
    load_data (some [name ++ ',' :: (address ++ ',' :: (dateStr ++ ',' :: (riskStr ++ ',' ::
      (result ++ ',' :: neighborhood))))]) =
      [Restaurant.mk name address d (riskStr.headD (Char.ofNat 0)) result neighborhood] := by
  simp [load_data, load_data_step, splitFields_line _ _ _ _ _ _ h1 h2 h3 h4 h5 hne hnl, hd]

/-- Claim C4 (violated by the code): the loader compares only the second delimiter
with the dash. The date text "05/17-2022", whose first delimiter is a slash, is
accepted and its line yields a record, whereas "2022/05/17" is rejected. -/
theorem C4_first_delimiter_unchecked :
    parseDate "05/17-2022".toList = some (Date.mk 17 5 2022) ∧
    load_data (some ["Joes Diner,123 Main St,05/17-2022,H,Pass,Downtown".toList]) =
      [Restaurant.mk "Joes Diner".toList "123 Main St".toList (Date.mk 17 5 2022) 'H'
        "Pass".toList "Downtown".toList] ∧
    parseDate "2022/05/17".toList = none ∧
    load_data (some ["Joes Diner,123 Main St,2022/05/17,H,Pass,Downtown".toList]) = [] := by
  refine ⟨by decide, by decide, by decide, by decide⟩

/-- With enough fuel the numeral does not depend on the fuel, and the accumulator
is appended. -/
theorem decimalAux_eq (fuel : Nat) :
    ∀ n acc, n < fuel → decimalAux fuel n acc = decimalAux (n + 1) n [] ++ acc := by
  induction fuel using Nat.strong_induction_on with
  | _ fuel ih =>
    intro n acc hn
    cases fuel with
    | zero => omega
    | succ k =>
      by_cases h10 : n < 10
      · simp [decimalAux, h10]
      · have hdiv : n / 10 < n := Nat.div_lt_self (by omega) (by omega)
        have hk : n / 10 < k := by omega
        simp only [decimalAux, h10, if_false]
        rw [ih k (by omega) (n / 10) _ hk]
        cases n with
        | zero => omega
        | succ j =>
          rw [ih (j + 1) (by omega) ((j + 1) / 10) [digitChar ((j + 1) % 10)] hdiv]
          simp

/-- Numeral of a one-digit number. -/
theorem decimal_small (n : Nat) (h : n < 10) : decimal n = [digitChar n] := by
  simp [decimal, decimalAux, h]

/-- Numeral of a number with several digits. -/
theorem decimal_large (n : Nat) (h : 10 ≤ n) :
    decimal n = decimal (n / 10) ++ [digitChar (n % 10)] := by
  have hdiv : n / 10 < n := Nat.div_lt_self (by omega) (by omega)
  unfold decimal
  cases n with
  | zero => omega
  | succ j =>
    have h10 : ¬ (j + 1 < 10) := by omega
    simp only [decimalAux, h10, if_false]
    exact decimalAux_eq (j + 1) ((j + 1) / 10) [digitChar ((j + 1) % 10)] hdiv

/-- The digit characters are digits. -/
theorem isDigit_digitChar (n : Nat) (h : n < 10) : (digitChar n).isDigit = true := by
  interval_cases n <;> decide

/-- The value of a digit character. -/
theorem digitVal_digitChar (n : Nat) (h : n < 10) : digitVal (digitChar n) = n := by
  interval_cases n <;> decide

/-- A numeral consists of digits only. -/
theorem decimal_all_digits (n : Nat) : ∀ c ∈ decimal n, c.isDigit = true := by
  induction n using Nat.strong_induction_on with
  | _ n ih =>
    by_cases h : n < 10
    · rw [decimal_small n h]
      intro c hc
      rw [List.mem_singleton] at hc
      rw [hc]
      exact isDigit_digitChar n h
    · rw [decimal_large n (by omega)]
      intro c hc
      rw [List.mem_append, List.mem_singleton] at hc
      rcases hc with hc | hc
      · exact ih (n / 10) (Nat.div_lt_self (by omega) (by omega)) c hc
      · rw [hc]
        exact isDigit_digitChar _ (Nat.mod_lt _ (by omega))

/-- A numeral is never empty. -/
theorem decimal_ne_nil (n : Nat) : decimal n ≠ [] := by
  by_cases h : n < 10
  · rw [decimal_small n h]; simp
  · rw [decimal_large n (by omega)]; simp

/-- Reading a numeral back gives the number. -/
theorem digitsVal_decimal (n : Nat) : digitsVal (decimal n) = n := by
  induction n using Nat.strong_induction_on with
  | _ n ih =>
    by_cases h : n < 10
    · rw [decimal_small n h]
      simp [digitsVal, digitVal_digitChar n h]
    · rw [decimal_large n (by omega)]
      have e := ih (n / 10) (Nat.div_lt_self (by omega) (by omega))
      unfold digitsVal at e ⊢
      rw [List.foldl_append, e]
      simp only [List.foldl_cons, List.foldl_nil]
      rw [digitVal_digitChar _ (Nat.mod_lt _ (by omega))]
      omega

/-- A digit is neither whitespace nor a sign. -/
theorem digit_not_space_sign (c : Char) (h : c.isDigit = true) :
    isSpace c = false ∧ c ≠ '-' ∧ c ≠ '+' := by
  refine ⟨?_, ?_, ?_⟩
  · cases hs : isSpace c with
    | false => rfl
    | true =>
      exfalso
      simp only [isSpace, Bool.or_eq_true, beq_iff_eq] at hs
      rcases hs with ((((hs | hs) | hs) | hs) | hs) | hs <;> rw [hs] at h <;>
        exact absurd h (by decide)
  · intro e; rw [e] at h; exact absurd h (by decide)
  · intro e; rw [e] at h; exact absurd h (by decide)

/-- Extraction of an `int` from a numeral of a value in range, followed by text that
does not start with a digit, yields the value and leaves that text unread. -/
theorem extractInt_decimal (n : Nat) (rest : List Char) (hn : (n : Int) ≤ INT_MAX)
    (hrest : ∀ c cs, rest = c :: cs → c.isDigit = false) :
    extractInt (decimal n ++ rest) = some ((n : Int), rest) := by
  have hall := decimal_all_digits n
  have htake : (decimal n ++ rest).takeWhile Char.isDigit = decimal n := by
    rw [List.takeWhile_append_of_pos hall]
    cases rest with
    | nil => simp
    | cons c cs => simp [hrest c cs rfl]
  have hdrop : (decimal n ++ rest).dropWhile Char.isDigit = rest := by
    rw [List.dropWhile_append_of_pos hall]
    cases rest with
    | nil => simp
    | cons c cs => simp [hrest c cs rfl]
  have hdigits : extractDigits false (decimal n ++ rest) = some ((n : Int), rest) := by
    unfold extractDigits
    simp only [htake, hdrop, decimal_ne_nil n, if_false, digitsVal_decimal n]
    have hmin : INT_MIN ≤ (n : Int) := by unfold INT_MIN; omega
    simp [hmin, hn]
  cases hdec : decimal n with
  | nil => exact absurd hdec (decimal_ne_nil n)
  | cons c cs =>
    have hc : c.isDigit = true := hall c (by rw [hdec]; exact List.mem_cons_self c cs)
    obtain ⟨hsp, hminus, hplus⟩ := digit_not_space_sign c hc
    rw [hdec] at hdigits
    unfold extractInt
    simp only [List.cons_append, List.dropWhile_cons, hsp, if_false, hminus, hplus,
      Bool.false_eq_true]
    exact hdigits

/-- The date text built from three numerals in range joined by dashes is accepted
with the numbers as month, day and year, whatever their calendar meaning. -/
theorem parseDate_decimal (m d y : Nat) (hm : (m : Int) ≤ INT_MAX) (hd : (d : Int) ≤ INT_MAX)
    (hy : (y : Int) ≤ INT_MAX) :
    parseDate (decimal m ++ '-' :: (decimal d ++ '-' :: decimal y)) =
      some (Date.mk (d : Int) (m : Int) (y : Int)) := by
  have hdash : ∀ (t : List Char) c cs, '-' :: t = c :: cs → c.isDigit = false := by
    intro t c cs e
    have : c = '-' := by injection e with e1 _; exact e1.symm
    rw [this]; decide
  have e1 := extractInt_decimal m ('-' :: (decimal d ++ '-' :: decimal y)) hm (hdash _)
  have e2 := extractInt_decimal d ('-' :: decimal y) hd (hdash _)
  have e3 := extractInt_decimal y [] hy (fun c cs e => by cases e)
  rw [List.append_nil] at e3
  have c1 : ∀ t : List Char, extractChar ('-' :: t) = some ('-', t) := by
    intro t
    simp [extractChar, List.dropWhile_cons, isSpace]
  unfold parseDate
  simp [e1, e2, e3, c1]

/-- No comma occurs in a date text built from numerals and dashes. -/
theorem comma_not_mem_date (m d y : Nat) :
    ',' ∉ decimal m ++ '-' :: (decimal d ++ '-' :: decimal y) := by
  have hdig : ∀ n, ',' ∉ decimal n := by
    intro n h
    exact absurd (decimal_all_digits n ',' h) (by decide)
  intro h
  simp only [List.mem_append, List.mem_cons] at h
  rcases h with h | h | h | h | h
  · exact hdig m h
  · exact absurd h (by decide)
  · exact hdig d h
  · exact absurd h (by decide)
  · exact hdig y h

/-- Claim C6: no calendar-range validation. For all non-negative m, d, y that fit in
an `int`, the date text "m-d-y" in decimal is accepted, and a six-field line carrying
it yields one record dated day d, month m, year y; "13-40-2022" gives month 13,
day 40, year 2022. -/
theorem C6_no_calendar_validation (m d y : Nat)
    (name address riskStr result neighborhood : List Char)
    (hm : (m : Int) ≤ INT_MAX) (hd : (d : Int) ≤ INT_MAX) (hy : (y : Int) ≤ INT_MAX)
    (h1 : ',' ∉ name) (h2 : ',' ∉ address) (h4 : ',' ∉ riskStr) (h5 : ',' ∉ result)
    (hne : neighborhood ≠ []) (hnl : '\n' ∉ neighborhood) :
    parseDate (decimal m ++ '-' :: (decimal d ++ '-' :: decimal y)) =
      some (Date.mk (d : Int) (m : Int) (y : Int)) ∧
    load_data (some [name ++ ',' :: (address ++ ',' ::
      ((decimal m ++ '-' :: (decimal d ++ '-' :: decimal y)) ++ ',' :: (riskStr ++ ',' ::
        (result ++ ',' :: neighborhood))))]) =
      [Restaurant.mk name address (Date.mk (d : Int) (m : Int) (y : Int))
        (riskStr.headD (Char.ofNat 0)) result neighborhood] ∧
    parseDate "13-40-2022".toList = some (Date.mk 40 13 2022) :=
  ⟨parseDate_decimal m d y hm hd hy,
    load_data_line name address _ riskStr result neighborhood _ h1 h2
      (comma_not_mem_date m d y) h4 h5 hne hnl (parseDate_decimal m d y hm hd hy),
    by decide⟩

/-- Instance of claim C6 at month 13, day 40, year 2022. -/
theorem C6_no_calendar_validation_witness :
    decimal 13 ++ '-' :: (decimal 40 ++ '-' :: decimal 2022) = "13-40-2022".toList ∧
    load_data (some ["Joes Diner,123 Main St,13-40-2022,H,Pass,Downtown".toList]) =
      [Restaurant.mk "Joes Diner".toList "123 Main St".toList (Date.mk 40 13 2022) 'H'
        "Pass".toList "Downtown".toList] :=
  ⟨by decide,
    (C6_no_calendar_validation 13 40 2022 "Joes Diner".toList "123 Main St".toList
      "H".toList "Pass".toList "Downtown".toList (by decide) (by decide) (by decide)
      (by decide) (by decide) (by decide) (by decide) (by decide) (by decide)).2.1⟩

/-! ### The overall summary -/

/-- Wrap-around leaves values in the range of `int` unchanged. -/
theorem toInt32_of_range (n : Int) (h0 : -2147483648 ≤ n) (h1 : n < 2147483648) :
    toInt32 n = n := by
  unfold toInt32
  omega

/-- Order facts: `b ≤ c` and `a ≤ b` give `a ≤ c`, written with `operator<`. -/
theorem Date.not_lt_trans (a b c : Date) (h1 : Date.lt c b = false)
    (h2 : Date.lt b a = false) : Date.lt c a = false := by
  rw [Date.lt_eq_false_iff] at h1 h2 ⊢
  omega

/-- Order facts: `a < b` and `b ≤ c` give `a < c`. -/
theorem Date.lt_of_lt_of_not_lt (a b c : Date) (h1 : Date.lt a b = true)
    (h2 : Date.lt c b = false) : Date.lt a c = true := by
  rw [Date.lt_eq_false_iff] at h2
  rw [Date.lt_iff] at h1 ⊢
  omega

/-- The pass counter during the loop, as long as it stays in the range of `int`. -/
theorem scan_passed (rs : List Restaurant) :
    ∀ st : OverallState, 0 ≤ st.passedRestaurants →
      st.passedRestaurants + rs.length < 2147483648 →
      (rs.foldl overallStep st).passedRestaurants =
        st.passedRestaurants + (rs.countP passedOrConditional : Nat) := by
  induction rs with
  | nil => intro st _ _; simp
  | cons r rs ih =>
    intro st h0 h1
    simp only [List.length_cons, Nat.cast_add, Nat.cast_one] at h1
    rw [List.foldl_cons]
    by_cases hp : passedOrConditional r = true
    · have hw : toInt32 (st.passedRestaurants + 1) = st.passedRestaurants + 1 :=
        toInt32_of_range _ (by omega) (by omega)
      have hstep : (overallStep st r).passedRestaurants = st.passedRestaurants + 1 := by
        unfold overallStep
        simp only [hp, if_true, hw]
        split_ifs <;> rfl
      rw [ih (overallStep st r) (by rw [hstep]; omega) (by rw [hstep]; omega), hstep,
        List.countP_cons_of_pos _ _ hp]
      push_cast
      omega
    · have hstep : overallStep st r = st := by
        unfold overallStep
        simp only [hp, if_false, Bool.false_eq_true]
      rw [hstep, ih st h0 (by omega), List.countP_cons_of_neg _ _ hp]

/-- Invariant of the loop of `displayOverAllInfo`: the best date never decreases, it
bounds the dates of all passing records scanned, and name and date are either still
the initial ones or those of one scanned passing record dated strictly after the
initial best date. -/
theorem scan_inv (rs : List Restaurant) :
    ∀ st : OverallState,
      Date.lt (rs.foldl overallStep st).mostRecentPassedDate st.mostRecentPassedDate = false ∧
      (∀ p ∈ rs, passedOrConditional p = true →
        Date.lt (rs.foldl overallStep st).mostRecentPassedDate p.inspectionDate = false) ∧
      (((rs.foldl overallStep st).mostRecentPassedRestaurantName =
            st.mostRecentPassedRestaurantName ∧
          (rs.foldl overallStep st).mostRecentPassedDate = st.mostRecentPassedDate) ∨
        ∃ p ∈ rs, passedOrConditional p = true ∧
          (rs.foldl overallStep st).mostRecentPassedRestaurantName = p.name ∧
          (rs.foldl overallStep st).mostRecentPassedDate = p.inspectionDate ∧
          Date.lt st.mostRecentPassedDate p.inspectionDate = true) := by
  induction rs with
  | nil =>
    intro st
    refine ⟨?_, ?_, Or.inl ⟨rfl, rfl⟩⟩
    · simp only [List.foldl_nil]
      rw [Date.lt_eq_false_iff]; omega
    · intro p hp; cases hp
  | cons r rs ih =>
    intro st
    rw [List.foldl_cons]
    obtain ⟨i1, i2, i3⟩ := ih (overallStep st r)
    by_cases hp : passedOrConditional r = true
    · by_cases hg : Date.gt r.inspectionDate st.mostRecentPassedDate = true
      · have hn : (overallStep st r).mostRecentPassedRestaurantName = r.name := by
          simp [overallStep, hp, hg]
        have hd : (overallStep st r).mostRecentPassedDate = r.inspectionDate := by
          simp [overallStep, hp, hg]
        have hlt : Date.lt st.mostRecentPassedDate r.inspectionDate = true := hg
        rw [hd] at i1 i3
        rw [hn] at i3
        have hle : Date.lt r.inspectionDate st.mostRecentPassedDate = false := by
          rw [Date.lt_eq_false_iff]; rw [Date.lt_iff] at hlt; omega
        refine ⟨Date.not_lt_trans _ _ _ i1 hle, ?_, ?_⟩
        · intro p hmem hpp
          rcases List.mem_cons.mp hmem with e | hmem
          · rw [e]; exact i1
          · exact i2 p hmem hpp
        · right
          rcases i3 with ⟨e1, e2⟩ | ⟨p, hmem, hpp, e1, e2, e3⟩
          · exact ⟨r, List.mem_cons_self r rs, hp, e1, e2, hlt⟩
          · refine ⟨p, List.mem_cons_of_mem r hmem, hpp, e1, e2, ?_⟩
            rw [Date.lt_iff] at hlt e3 ⊢
            omega
      · have hn : (overallStep st r).mostRecentPassedRestaurantName =
            st.mostRecentPassedRestaurantName := by
          simp [overallStep, hp, hg]
        have hd : (overallStep st r).mostRecentPassedDate = st.mostRecentPassedDate := by
          simp [overallStep, hp, hg]
        rw [hd] at i1 i3
        rw [hn] at i3
        have hle : Date.lt st.mostRecentPassedDate r.inspectionDate = false := by
          simpa [Date.gt] using hg
        refine ⟨i1, ?_, ?_⟩
        · intro p hmem hpp
          rcases List.mem_cons.mp hmem with e | hmem
          · rw [e]; exact Date.not_lt_trans _ _ _ i1 hle
          · exact i2 p hmem hpp
        · rcases i3 with h | ⟨p, hmem, hpp, e1, e2, e3⟩
          · exact Or.inl h
          · exact Or.inr ⟨p, List.mem_cons_of_mem r hmem, hpp, e1, e2, e3⟩
    · have hstep : overallStep st r = st := by
        unfold overallStep
        simp only [hp, if_false, Bool.false_eq_true]
      rw [hstep] at i1 i2 i3 ⊢
      refine ⟨i1, ?_, ?_⟩
      · intro p hmem hpp
        rcases List.mem_cons.mp hmem with e | hmem
        · rw [e] at hpp; exact absurd hpp hp
        · exact i2 p hmem hpp
      · rcases i3 with h | ⟨p, hmem, hpp, e1, e2, e3⟩
        · exact Or.inl h
        · exact Or.inr ⟨p, List.mem_cons_of_mem r hmem, hpp, e1, e2, e3⟩

/-- Records that do not beat the current best date leave name and date alone. -/
theorem scan_keep (rs : List Restaurant) :
    ∀ st : OverallState,
      (∀ q ∈ rs, passedOrConditional q = true →
        Date.gt q.inspectionDate st.mostRecentPassedDate = false) →
      (rs.foldl overallStep st).mostRecentPassedRestaurantName =
          st.mostRecentPassedRestaurantName ∧
        (rs.foldl overallStep st).mostRecentPassedDate = st.mostRecentPassedDate := by
  induction rs with
  | nil => intro st _; exact ⟨rfl, rfl⟩
  | cons r rs ih =>
    intro st h
    rw [List.foldl_cons]
    have hn : (overallStep st r).mostRecentPassedRestaurantName =
          st.mostRecentPassedRestaurantName ∧
        (overallStep st r).mostRecentPassedDate = st.mostRecentPassedDate := by
      by_cases hp : passedOrConditional r = true
      · have hg := h r (List.mem_cons_self r rs) hp
        simp [overallStep, hp, hg]
      · simp [overallStep, hp]
    have h2 := ih (overallStep st r) (by
      intro q hq hpq
      rw [hn.2]
      exact h q (List.mem_cons_of_mem r hq) hpq)
    rw [hn.1, hn.2] at h2
    exact h2

/-- Without a pending width nothing is padded. -/
theorem pad_zero (fill : Char) (left : Bool) (s : List Char) : pad 0 fill left s = s := by
  cases left <;> simp [pad]

/-- Text of a non-negative `int`. -/
theorem showInt_natCast (n : Nat) : showInt (n : Int) = decimal n := by
  unfold showInt
  have h : ¬ ((n : Int) < 0) := by omega
  simp [h]

/-- The two count lines: text written and formatting state left behind. -/
theorem printCounts_spec (os : OStream) (t p : Int) :
    (printCounts os t p).out =
        (os.str "Number of restaurants: ").out ++ showInt t ++ ['\n'] ++
          "Number that pass: ".toList ++ showInt p ++ ['\n'] ∧
      (printCounts os t p).width = 0 ∧ (printCounts os t p).left = os.left := by
  simp [printCounts, OStream.str, OStream.int, OStream.put, OStream.endl, pad_zero]

/-- Text of the line written when no name was recorded. -/
theorem printNoRecent_out (os : OStream) (hw : os.width = 0) :
    (printNoRecent os).out = os.out ++ "No recent passing inspections found.".toList ++ ['\n'] := by
  simp [printNoRecent, OStream.str, OStream.put, OStream.endl, hw, pad_zero]

/-- Text of the line naming the most recent passing inspection. -/
theorem printMostRecent_out (os : OStream) (name : List Char) (date : Date)
    (hw : os.width = 0) :
    (printMostRecent os name date).out =
      os.out ++ "Most recent passing inspection was of ".toList ++ name ++ " on ".toList ++
        pad 2 '0' os.left (showInt date.month) ++ "-".toList ++ showInt date.day ++
        "-".toList ++ showInt date.year ++ ['\n'] := by
  simp [printMostRecent, OStream.str, OStream.int, OStream.put, OStream.endl, OStream.setw,
    OStream.setfill, hw, pad_zero]

/-- Text written by `displayOverAllInfo` in terms of the values of its locals. -/
theorem displayOverAllInfo_out (os : OStream) (rs : List Restaurant) :
    (displayOverAllInfo os rs).out =
      (printCounts os (toInt32 rs.length) (overallScan rs).passedRestaurants).out ++
        (if (overallScan rs).mostRecentPassedRestaurantName = [] then
          "No recent passing inspections found.".toList ++ ['\n']
        else
          "Most recent passing inspection was of ".toList ++
            (overallScan rs).mostRecentPassedRestaurantName ++ " on ".toList ++
            pad 2 '0' os.left (showInt (overallScan rs).mostRecentPassedDate.month) ++
            "-".toList ++ showInt (overallScan rs).mostRecentPassedDate.day ++
            "-".toList ++ showInt (overallScan rs).mostRecentPassedDate.year ++ ['\n']) := by
  obtain ⟨-, hw, hl⟩ := printCounts_spec os (toInt32 rs.length) (overallScan rs).passedRestaurants
  unfold displayOverAllInfo
  by_cases hn : (overallScan rs).mostRecentPassedRestaurantName = []
  · simp only [hn, List.isEmpty_nil, if_true]
    rw [printNoRecent_out _ hw, List.append_assoc]
  · have he : (overallScan rs).mostRecentPassedRestaurantName.isEmpty = false := by
      cases h : (overallScan rs).mostRecentPassedRestaurantName with
      | nil => exact absurd h hn
      | cons _ _ => rfl
    simp only [he, hn, if_false, Bool.false_eq_true]
    rw [printMostRecent_out _ _ _ hw, hl]
    simp only [List.append_assoc]

/-- Claim C7: for a record sequence whose length fits in an `int`, the summary prints
the length as the total and, as pass count, the number of records whose result is
exactly "Pass" or exactly "Conditional"; "pass", "Pass " and "Passed" do not count. -/
theorem C7_overall_counts (os : OStream) (rs : List Restaurant)
    (h : rs.length < 2147483648) :
    (overallScan rs).passedRestaurants = (rs.countP passedOrConditional : Nat) ∧
    (∃ rest, (displayOverAllInfo os rs).out =
      (os.str "Number of restaurants: ").out ++ decimal rs.length ++ ['\n'] ++
        "Number that pass: ".toList ++ decimal (rs.countP passedOrConditional) ++ ['\n'] ++
        rest) ∧
    (∀ r : Restaurant, passedOrConditional r = true ↔
      (r.result = "Pass".toList ∨ r.result = "Conditional".toList)) ∧
    (∀ r : Restaurant, r.result = "pass".toList ∨ r.result = "Pass ".toList ∨
      r.result = "Passed".toList → passedOrConditional r = false) := by
  have hp : (overallScan rs).passedRestaurants = (rs.countP passedOrConditional : Nat) := by
    have := scan_passed rs OverallState.init (by decide) (by
      show (0 : Int) + (rs.length : Int) < 2147483648
      omega)
    rw [overallScan, this]
    show (0 : Int) + _ = _
    omega
  have ht : toInt32 (rs.length : Int) = (rs.length : Int) :=
    toInt32_of_range _ (by omega) (by omega)
  refine ⟨hp, ?_, ?_, ?_⟩
  · have e := displayOverAllInfo_out os rs
    rw [(printCounts_spec os _ _).1, hp, ht, showInt_natCast, showInt_natCast] at e
    exact ⟨_, e⟩
  · intro r
    simp [passedOrConditional]
  · intro r hr
    rcases hr with hr | hr | hr <;> simp [passedOrConditional, hr]

/-- Instance of claim C7: five records, two of which count as passing. -/
theorem C7_overall_counts_witness :
    (displayOverAllInfo OStream.initial
      [Restaurant.mk "A".toList "1 Main St".toList (Date.mk 17 5 2022) 'H' "Pass".toList
          "Downtown".toList,
        Restaurant.mk "B".toList "2 Main St".toList (Date.mk 18 5 2022) 'M' "pass".toList
          "Downtown".toList,
        Restaurant.mk "C".toList "3 Main St".toList (Date.mk 19 5 2022) 'L' "Conditional".toList
          "Uptown".toList,
        Restaurant.mk "D".toList "4 Main St".toList (Date.mk 20 5 2022) 'L' "Pass ".toList
          "Uptown".toList,
        Restaurant.mk "E".toList "5 Main St".toList (Date.mk 21 5 2022) 'L' "Passed".toList
          "Uptown".toList]).out =
      ("Number of restaurants: 5".toList ++ ['\n'] ++ "Number that pass: 2".toList ++ ['\n'] ++
        "Most recent passing inspection was of C on 05-19-2022".toList ++ ['\n']) ∧
    (overallScan
      [Restaurant.mk "A".toList "1 Main St".toList (Date.mk 17 5 2022) 'H' "Pass".toList
          "Downtown".toList,
        Restaurant.mk "B".toList "2 Main St".toList (Date.mk 18 5 2022) 'M' "pass".toList
          "Downtown".toList]).passedRestaurants = 1 :=
  ⟨by decide,
    (C7_overall_counts OStream.initial
      [Restaurant.mk "A".toList "1 Main St".toList (Date.mk 17 5 2022) 'H' "Pass".toList
          "Downtown".toList,
        Restaurant.mk "B".toList "2 Main St".toList (Date.mk 18 5 2022) 'M' "pass".toList
          "Downtown".toList] (by decide)).1⟩

/-- When every record has a non-empty name, no name is recorded by the loop exactly
when no passing record is dated strictly after 2000-01-01. -/
theorem scan_name_nil_iff (rs : List Restaurant) (hnames : ∀ r ∈ rs, r.name ≠ []) :
    (overallScan rs).mostRecentPassedRestaurantName = [] ↔
      ¬ ∃ r ∈ rs, passedOrConditional r = true ∧
        Date.gt r.inspectionDate (Date.mk 1 1 2000) = true := by
  obtain ⟨-, i2, i3⟩ := scan_inv rs OverallState.init
  constructor
  · rintro hnil ⟨r, hr, hp, hg⟩
    rcases i3 with ⟨-, e2⟩ | ⟨p, hmem, -, e1, -, -⟩
    · have h2 := i2 r hr hp
      rw [e2] at h2
      have hg2 : Date.lt (Date.mk 1 1 2000) r.inspectionDate = true := hg
      have : Date.lt OverallState.init.mostRecentPassedDate r.inspectionDate = true := hg2
      rw [this] at h2
      cases h2
    · exact hnames p hmem (by rw [← e1]; exact hnil)
  · intro hno
    rcases i3 with ⟨e1, -⟩ | ⟨p, hmem, hpp, -, -, e3⟩
    · exact e1
    · exact absurd ⟨p, hmem, hpp, e3⟩ hno

/-- Claim C8 (violated by the code): the summary decides between its two final lines
by testing whether the recorded name is empty. A line with an empty name field loads
as a passing record dated after 2000-01-01, and the summary of that single record
still prints the line "No recent passing inspections found." -/
theorem C8_unnamed_record_reports_no_recent :
    load_data (some [",123 Main St,05-17-2022,H,Pass,Downtown".toList]) = [sampleUnnamed] ∧
    passedOrConditional sampleUnnamed = true ∧
    Date.gt sampleUnnamed.inspectionDate (Date.mk 1 1 2000) = true ∧
    (displayOverAllInfo OStream.initial [sampleUnnamed]).out =
      "Number of restaurants: 1".toList ++ ['\n'] ++ "Number that pass: 1".toList ++ ['\n'] ++
        "No recent passing inspections found.".toList ++ ['\n'] := by
  refine ⟨by decide, by decide, by decide, by decide⟩

/-- Claim C9: whenever the summary reports a most recent passing inspection (a name
was recorded), the reported date is the greatest inspection date among the records
whose result is "Pass" or "Conditional", and the reported name is the name of such a
record carrying exactly that date. -/
theorem C9_reported_is_maximum (os : OStream) (rs : List Restaurant)
    (hreport : (overallScan rs).mostRecentPassedRestaurantName ≠ []) :
    ∃ r ∈ rs, passedOrConditional r = true ∧
      (∀ p ∈ rs, passedOrConditional p = true →
        Date.lt r.inspectionDate p.inspectionDate = false) ∧
      (overallScan rs).mostRecentPassedRestaurantName = r.name ∧
      (overallScan rs).mostRecentPassedDate = r.inspectionDate ∧
      (displayOverAllInfo os rs).out =
        (printCounts os (toInt32 rs.length) (overallScan rs).passedRestaurants).out ++
          ("Most recent passing inspection was of ".toList ++ r.name ++ " on ".toList ++
            pad 2 '0' os.left (showInt r.inspectionDate.month) ++
            "-".toList ++ showInt r.inspectionDate.day ++
            "-".toList ++ showInt r.inspectionDate.year ++ ['\n']) := by
  obtain ⟨-, i2, i3⟩ := scan_inv rs OverallState.init
  rcases i3 with ⟨e1, -⟩ | ⟨r, hmem, hp, e1, e2, -⟩
  · exact absurd e1 hreport
  · refine ⟨r, hmem, hp, ?_, e1, e2, ?_⟩
    · intro p hpm hpp
      have := i2 p hpm hpp
      rw [e2] at this
      exact this
    · rw [displayOverAllInfo_out, if_neg hreport]
      have e1' : (overallScan rs).mostRecentPassedRestaurantName = r.name := e1
      have e2' : (overallScan rs).mostRecentPassedDate = r.inspectionDate := e2
      rw [e1', e2']

/-- Instance of claim C9: of two passes dated 2019-01-01 and 2021-06-15 the later
one is reported. -/
theorem C9_reported_is_maximum_witness :
    (overallScan sampleTwoPasses).mostRecentPassedRestaurantName = "New Cafe".toList ∧
    (overallScan sampleTwoPasses).mostRecentPassedDate = Date.mk 15 6 2021 ∧
    (displayOverAllInfo OStream.initial sampleTwoPasses).out =
      "Number of restaurants: 2".toList ++ ['\n'] ++ "Number that pass: 2".toList ++ ['\n'] ++
        "Most recent passing inspection was of New Cafe on 06-15-2021".toList ++ ['\n'] ∧
    ∃ r ∈ sampleTwoPasses, passedOrConditional r = true ∧
      (∀ p ∈ sampleTwoPasses, passedOrConditional p = true →
        Date.lt r.inspectionDate p.inspectionDate = false) ∧
      (overallScan sampleTwoPasses).mostRecentPassedRestaurantName = r.name ∧
      (overallScan sampleTwoPasses).mostRecentPassedDate = r.inspectionDate :=
  ⟨by decide, by decide, by decide,
    (C9_reported_is_maximum OStream.initial sampleTwoPasses (by decide)).imp
      (fun _ h => ⟨h.1, h.2.1, h.2.2.1, h.2.2.2.1, h.2.2.2.2.1⟩)⟩

/-- Claim C10 as stated fails: of two passing records sharing the latest date the
summary names the first one in file order, not the last. -/
theorem C10_tie_reports_first_not_last :
    passedOrConditional sampleTieFirst = true ∧ passedOrConditional sampleTieLast = true ∧
    sampleTieFirst.inspectionDate = sampleTieLast.inspectionDate ∧
    Date.gt sampleTieLast.inspectionDate (Date.mk 1 1 2000) = true ∧
    (overallScan [sampleTieFirst, sampleTieLast]).mostRecentPassedRestaurantName =
      sampleTieFirst.name ∧
    (overallScan [sampleTieFirst, sampleTieLast]).mostRecentPassedRestaurantName ≠
      sampleTieLast.name ∧
    (displayOverAllInfo OStream.initial [sampleTieFirst, sampleTieLast]).out =
      "Number of restaurants: 2".toList ++ ['\n'] ++ "Number that pass: 2".toList ++ ['\n'] ++
        "Most recent passing inspection was of Alpha on 05-17-2022".toList ++ ['\n'] := by
  refine ⟨by decide, by decide, by decide, by decide, by decide, by decide, by decide⟩

/-- Claim C10 (amended): when several passing or conditional records share the
greatest inspection date, and that date is strictly after 2000-01-01, the summary
reports the one that occurs first in file order (given that its name is not empty):
every passing record before it is strictly earlier, and no passing record after it
is later. -/
theorem C10_tie_keeps_first (os : OStream) (before after : List Restaurant) (r : Restaurant)
    (hp : passedOrConditional r = true)
    (hfloor : Date.gt r.inspectionDate (Date.mk 1 1 2000) = true)
    (hbefore : ∀ p ∈ before, passedOrConditional p = true →
      Date.lt p.inspectionDate r.inspectionDate = true)
    (hafter : ∀ q ∈ after, passedOrConditional q = true →
      Date.gt q.inspectionDate r.inspectionDate = false)
    (hname : r.name ≠ []) :
    (overallScan (before ++ r :: after)).mostRecentPassedRestaurantName = r.name ∧
    (overallScan (before ++ r :: after)).mostRecentPassedDate = r.inspectionDate ∧
    (displayOverAllInfo os (before ++ r :: after)).out =
      (printCounts os (toInt32 (before ++ r :: after).length)
          (overallScan (before ++ r :: after)).passedRestaurants).out ++
        ("Most recent passing inspection was of ".toList ++ r.name ++ " on ".toList ++
          pad 2 '0' os.left (showInt r.inspectionDate.month) ++
          "-".toList ++ showInt r.inspectionDate.day ++
          "-".toList ++ showInt r.inspectionDate.year ++ ['\n']) := by
  have hg : Date.gt r.inspectionDate
      (before.foldl overallStep OverallState.init).mostRecentPassedDate = true := by
    obtain ⟨-, -, i3⟩ := scan_inv before OverallState.init
    rcases i3 with ⟨-, e2⟩ | ⟨p, hmem, hpp, -, e2, -⟩
    · rw [e2]; exact hfloor
    · rw [e2]; exact hbefore p hmem hpp
  have hstep : overallStep (before.foldl overallStep OverallState.init) r =
      OverallState.mk
        (toInt32 ((before.foldl overallStep OverallState.init).passedRestaurants + 1))
        r.name r.inspectionDate := by
    simp [overallStep, hp, hg]
  have hkeep := scan_keep after (overallStep (before.foldl overallStep OverallState.init) r)
    (by rw [hstep]; exact hafter)
  rw [hstep] at hkeep
  have hscan : overallScan (before ++ r :: after) =
      after.foldl overallStep (OverallState.mk
        (toInt32 ((before.foldl overallStep OverallState.init).passedRestaurants + 1))
        r.name r.inspectionDate) := by
    rw [overallScan, List.foldl_append, List.foldl_cons, hstep]
  have hn : (overallScan (before ++ r :: after)).mostRecentPassedRestaurantName = r.name := by
    rw [hscan]; exact hkeep.1
  have hd : (overallScan (before ++ r :: after)).mostRecentPassedDate = r.inspectionDate := by
    rw [hscan]; exact hkeep.2
  refine ⟨hn, hd, ?_⟩
  rw [displayOverAllInfo_out, hn, hd, if_neg hname]

/-- Instance of the amended claim C10: an earlier pass, two passes sharing the
latest date, and a later failure. -/
theorem C10_tie_keeps_first_witness :
    (overallScan ([sampleEarlier] ++ sampleTieFirst :: [sampleTieLast, sampleFailed])
      ).mostRecentPassedRestaurantName = "Alpha".toList ∧
    (displayOverAllInfo OStream.initial
      ([sampleEarlier] ++ sampleTieFirst :: [sampleTieLast, sampleFailed])).out =
      "Number of restaurants: 4".toList ++ ['\n'] ++ "Number that pass: 3".toList ++ ['\n'] ++
        "Most recent passing inspection was of Alpha on 05-17-2022".toList ++ ['\n'] :=
  ⟨(C10_tie_keeps_first OStream.initial [sampleEarlier] [sampleTieLast, sampleFailed]
      sampleTieFirst (by decide) (by decide) (by decide) (by decide) (by decide)).1,
    by decide⟩

/-! ### Leap years -/

/-- Claim C19: for every integer year, negative years and zero included, `isLeapYear`
is true exactly when the year is divisible by 4 and not by 100, or divisible by 400;
the answer depends on the year only. -/
theorem C19_isLeapYear_gregorian :
    (∀ d : Date, d.isLeapYear = true ↔
      ((4 ∣ d.year ∧ ¬ 100 ∣ d.year) ∨ 400 ∣ d.year)) ∧
    (∀ d e : Date, d.year = e.year → d.isLeapYear = e.isLeapYear) ∧
    (Date.mk 1 1 2000).isLeapYear = true ∧ (Date.mk 1 1 1900).isLeapYear = false ∧
    (Date.mk 29 2 2024).isLeapYear = true ∧ (Date.mk 1 1 0).isLeapYear = true ∧
    (Date.mk 1 1 (-4)).isLeapYear = true ∧ (Date.mk 1 1 (-100)).isLeapYear = false := by
  have key : ∀ (y k : Int), y.tmod k = 0 ↔ k ∣ y :=
    fun y k => ⟨Int.dvd_of_tmod_eq_zero, Int.tmod_eq_zero_of_dvd⟩
  refine ⟨?_, ?_, by decide, by decide, by decide, by decide, by decide, by decide⟩
  · intro d
    have hiff : (d.year.tmod 4 = 0 ∧ d.year.tmod 100 ≠ 0 ∨ d.year.tmod 400 = 0) ↔
        ((4 ∣ d.year ∧ ¬ 100 ∣ d.year) ∨ 400 ∣ d.year) := by
      simp only [key, ne_eq]
    rw [← hiff]
    unfold Date.isLeapYear
    split_ifs with h <;> simp [h]
  · intro d e h
    unfold Date.isLeapYear
    rw [h]

/-! ### The neighborhood table -/

/-- Membership in the collected neighborhoods, for an arbitrary start of the loop. -/
theorem mem_foldl_uniqueStep (rs : List Restaurant) :
    ∀ (acc : List (List Char)) (n : List Char),
      n ∈ rs.foldl uniqueStep acc ↔ n ∈ acc ∨ ∃ r ∈ rs, r.neighborhood = n := by
  induction rs with
  | nil => intro acc n; simp
  | cons r rs ih =>
    intro acc n
    rw [List.foldl_cons, ih]
    unfold uniqueStep
    by_cases hmem : r.neighborhood ∈ acc
    · rw [if_pos hmem]
      constructor
      · rintro (h | ⟨q, hq, e⟩)
        · exact Or.inl h
        · exact Or.inr ⟨q, List.mem_cons_of_mem r hq, e⟩
      · rintro (h | ⟨q, hq, e⟩)
        · exact Or.inl h
        · rcases List.mem_cons.mp hq with e2 | hq
          · left; rw [← e, e2]; exact hmem
          · exact Or.inr ⟨q, hq, e⟩
    · rw [if_neg hmem]
      constructor
      · rintro (h | ⟨q, hq, e⟩)
        · rcases List.mem_append.mp h with h | h
          · exact Or.inl h
          · rw [List.mem_singleton] at h
            exact Or.inr ⟨r, List.mem_cons_self r rs, h.symm⟩
        · exact Or.inr ⟨q, List.mem_cons_of_mem r hq, e⟩
      · rintro (h | ⟨q, hq, e⟩)
        · exact Or.inl (List.mem_append_left _ h)
        · rcases List.mem_cons.mp hq with e2 | hq
          · left
            rw [← e, e2]
            exact List.mem_append_right _ (List.mem_singleton_self _)
          · exact Or.inr ⟨q, hq, e⟩

/-- The collected neighborhoods after one more record. -/
theorem uniqueNeighborhoods_append_singleton (rs : List Restaurant) (r : Restaurant) :
    uniqueNeighborhoods (rs ++ [r]) = uniqueStep (uniqueNeighborhoods rs) r := by
  simp [uniqueNeighborhoods, List.foldl_append]

/-- The collected neighborhoods are exactly the neighborhoods of the records. -/
theorem mem_uniqueNeighborhoods (rs : List Restaurant) (n : List Char) :
    n ∈ uniqueNeighborhoods rs ↔ ∃ r ∈ rs, r.neighborhood = n := by
  unfold uniqueNeighborhoods
  rw [mem_foldl_uniqueStep]
  simp

/-- No neighborhood is collected twice, and the collected neighborhoods are ordered by
the position of their first occurrence among the records. -/
theorem uniqueNeighborhoods_ordered (rs : List Restaurant) :
    (uniqueNeighborhoods rs).Nodup ∧
    (uniqueNeighborhoods rs).Pairwise (fun a b => firstOccurrence rs a < firstOccurrence rs b) := by
  induction rs using List.reverseRecOn with
  | nil => simp [uniqueNeighborhoods]
  | append_singleton rs r ih =>
    obtain ⟨hnd, hpw⟩ := ih
    rw [uniqueNeighborhoods_append_singleton]
    have hold : ∀ a ∈ uniqueNeighborhoods rs,
        firstOccurrence (rs ++ [r]) a = firstOccurrence rs a ∧
          firstOccurrence rs a < rs.length := by
      intro a ha
      obtain ⟨q, hq, e⟩ := (mem_uniqueNeighborhoods rs a).mp ha
      have hlt : firstOccurrence rs a < rs.length :=
        List.findIdx_lt_length_of_exists ⟨q, hq, by simpa using e⟩
      refine ⟨?_, hlt⟩
      unfold firstOccurrence at hlt ⊢
      rw [List.findIdx_append, if_pos hlt]
    have hpw2 : (uniqueNeighborhoods rs).Pairwise (fun a b =>
        firstOccurrence (rs ++ [r]) a < firstOccurrence (rs ++ [r]) b) := by
      refine hpw.imp_of_mem ?_
      intro a b ha hb hlt
      rw [(hold a ha).1, (hold b hb).1]
      exact hlt
    unfold uniqueStep
    by_cases hmem : r.neighborhood ∈ uniqueNeighborhoods rs
    · rw [if_pos hmem]
      exact ⟨hnd, hpw2⟩
    · rw [if_neg hmem]
      have hnew : firstOccurrence rs r.neighborhood = rs.length := by
        unfold firstOccurrence
        apply List.findIdx_eq_length_of_false
        intro q hq
        have : q.neighborhood ≠ r.neighborhood := fun e =>
          hmem ((mem_uniqueNeighborhoods rs _).mpr ⟨q, hq, e⟩)
        simpa using this
      refine ⟨?_, ?_⟩
      · rw [List.nodup_append]
        refine ⟨hnd, List.nodup_singleton _, ?_⟩
        intro a ha hb
        rw [List.mem_singleton] at hb
        exact hmem (hb ▸ ha)
      · rw [List.pairwise_append]
        refine ⟨hpw2, List.pairwise_singleton _ _, ?_⟩
        intro a ha b hb
        rw [List.mem_singleton] at hb
        rw [hb, (hold a ha).1]
        have h1 := (hold a ha).2
        have h2 : firstOccurrence (rs ++ [r]) r.neighborhood = rs.length := by
          unfold firstOccurrence at hnew ⊢
          rw [List.findIdx_append, hnew, if_neg (Nat.lt_irrefl _)]
          simp [List.findIdx_cons]
        omega

/-- One table row: text written and formatting state left behind. -/
theorem printRow_spec (os : OStream) (n : List Char) (c : NeighborhoodCounts) :
    (printRow os n c).out = os.out ++ rowText os.fill n c ∧
      (printRow os n c).width = 0 ∧ (printRow os n c).fill = os.fill := by
  simp [printRow, rowText, OStream.setLeft, OStream.setw, OStream.put, OStream.int,
    OStream.endl]

/-- The heading of the table: formatting state left behind. -/
theorem printTableHead_spec (os : OStream) :
    (printTableHead os).width = 0 ∧ (printTableHead os).fill = os.fill := by
  simp [printTableHead, OStream.str, OStream.put, OStream.endl]

/-- The rows are written one after the other. -/
theorem foldl_printRow_out (rows : List (List Char × NeighborhoodCounts)) :
    ∀ os : OStream,
      (rows.foldl (fun cout row => printRow cout row.1 row.2) os).out =
        os.out ++ (rows.map (fun row => rowText os.fill row.1 row.2)).flatten := by
  induction rows with
  | nil => intro os; simp
  | cons row rows ih =>
    intro os
    obtain ⟨h1, -, h3⟩ := printRow_spec os row.1 row.2
    rw [List.foldl_cons, ih, h1, h3]
    simp

/-- Text written by `displayPassingNumbersByNeighborhood`: the heading, then one row
for every collected neighborhood in order. -/
theorem displayPassingNumbersByNeighborhood_out (os : OStream) (rs : List Restaurant) :
    (displayPassingNumbersByNeighborhood os rs).out =
      (printTableHead os).out ++ ((uniqueNeighborhoods rs).map (fun n =>
        rowText os.fill n (neighborhoodCounts rs n))).flatten := by
  obtain ⟨-, hf⟩ := printTableHead_spec os
  unfold displayPassingNumbersByNeighborhood
  rw [foldl_printRow_out, hf]
  simp [neighborhoodRows, List.map_map, Function.comp_def]

/-- Claim C13: the rows of the table name exactly the neighborhood values that occur
in the records, each exactly once, ordered by the position of the first record of
each neighborhood in file order. -/
theorem C13_rows_first_occurrence_order (os : OStream) (rs : List Restaurant) :
    (displayPassingNumbersByNeighborhood os rs).out =
      (printTableHead os).out ++ ((uniqueNeighborhoods rs).map (fun n =>
        rowText os.fill n (neighborhoodCounts rs n))).flatten ∧
    (neighborhoodRows rs).map Prod.fst = uniqueNeighborhoods rs ∧
    (∀ n, n ∈ uniqueNeighborhoods rs ↔ ∃ r ∈ rs, r.neighborhood = n) ∧
    (uniqueNeighborhoods rs).Nodup ∧
    (uniqueNeighborhoods rs).Pairwise (fun a b =>
      firstOccurrence rs a < firstOccurrence rs b) ∧
    uniqueNeighborhoods sampleTable = ["Downtown".toList, "Uptown".toList, "Midtown".toList] := by
  refine ⟨displayPassingNumbersByNeighborhood_out os rs, ?_, mem_uniqueNeighborhoods rs,
    (uniqueNeighborhoods_ordered rs).1, (uniqueNeighborhoods_ordered rs).2, by decide⟩
  simp [neighborhoodRows, List.map_map, Function.comp_def]

/-- Counting with the disjunction of two tests that never hold together. -/
theorem countP_or_disjoint (p q : Restaurant → Bool) (rs : List Restaurant)
    (hdis : ∀ r, ¬ (p r = true ∧ q r = true)) :
    rs.countP (fun r => p r || q r) = rs.countP p + rs.countP q := by
  induction rs with
  | nil => simp
  | cons r rs ih =>
    rw [List.countP_cons, List.countP_cons, List.countP_cons, ih]
    have := hdis r
    cases hp : p r <;> cases hq : q r <;> simp [hp, hq] at this ⊢ <;> omega

/-- The search of `find` succeeds exactly when the needle is a contiguous part of the
haystack. -/
theorem findFrom_isSome_iff (haystack needle : List Char) :
    ∀ pos : Nat, (findFrom haystack needle pos).isSome = true ↔ needle <:+: haystack := by
  induction haystack with
  | nil =>
    intro pos
    unfold findFrom
    by_cases h : needle = []
    · simp [h]
    · simp [h]
  | cons c cs ih =>
    intro pos
    unfold findFrom
    rw [List.infix_cons_iff]
    by_cases h : needle.isPrefixOf (c :: cs) = true
    · rw [if_pos h]
      simp only [Option.isSome_some, true_iff]
      exact Or.inl (List.isPrefixOf_iff_prefix.mp h)
    · rw [if_neg h, ih]
      constructor
      · exact Or.inr
      · rintro (hp | hi)
        · exact absurd (List.isPrefixOf_iff_prefix.mpr hp) h
        · exact hi

/-- A record matches exactly when its lower-cased name contains the lower-cased
search text as a contiguous run of characters. -/
theorem nameMatches_iff (t : List Char) (r : Restaurant) :
    nameMatches t r = true ↔ transformToLower t <:+: transformToLower r.name := by
  unfold nameMatches find
  exact findFrom_isSome_iff _ _ 0

/-- Lower-casing after upper-casing is lower-casing. -/
theorem toLower_toUpper (c : Char) : c.toUpper.toLower = c.toLower := by
  by_cases h : c.toNat ≥ 97 ∧ c.toNat ≤ 122
  · have hc : c = Char.ofNat c.toNat := (Char.ofNat_toNat c).symm
    obtain ⟨h1, h2⟩ := h
    generalize c.toNat = n at hc h1 h2
    subst hc
    interval_cases n <;> decide
  · have : c.toUpper = c := by
      unfold Char.toUpper
      simp only [h, if_false]
    rw [this]

/-- The block of one match: text written and formatting state left behind. -/
theorem printMatch_spec (os : OStream) (r : Restaurant) (hw : os.width = 0) :
    (printMatch os r).out = os.out ++ matchText os.left r ∧
      (printMatch os r).width = 0 ∧ (printMatch os r).left = os.left := by
  simp [printMatch, printInspectionDate, matchText, OStream.str, OStream.int, OStream.put,
    OStream.endl, OStream.setw, OStream.setfill, hw, pad_zero]

/-- The loop of the search: flag and text after the loop, for an arbitrary start. -/
theorem foldl_searchStep (t : List Char) (rs : List Restaurant) :
    ∀ st : Bool × OStream, st.2.width = 0 →
      (rs.foldl (searchStep t) st).1 = (st.1 || rs.any (nameMatches t)) ∧
      (rs.foldl (searchStep t) st).2.out =
        st.2.out ++ ((rs.filter (nameMatches t)).map (matchText st.2.left)).flatten ∧
      (rs.foldl (searchStep t) st).2.width = 0 := by
  induction rs with
  | nil => intro st hw; simp [hw]
  | cons r rs ih =>
    intro st hw
    rw [List.foldl_cons]
    by_cases hm : nameMatches t r = true
    · obtain ⟨h1, h2, h3⟩ := printMatch_spec st.2 r hw
      have hstep : searchStep t st r = (true, printMatch st.2 r) := by
        simp [searchStep, hm]
      obtain ⟨i1, i2, i3⟩ := ih (true, printMatch st.2 r) h2
      rw [hstep]
      refine ⟨?_, ?_, i3⟩
      · rw [i1]; simp [hm]
      · rw [i2]
        simp [hm, h1, h3]
    · have hstep : searchStep t st r = st := by
        simp [searchStep, hm]
      obtain ⟨i1, i2, i3⟩ := ih st hw
      rw [hstep]
      refine ⟨?_, ?_, i3⟩
      · rw [i1]; simp [hm]
      · rw [i2]; simp [hm]

/-- A text and a newline written without a pending width. -/
theorem str_endl_out (os : OStream) (text : String) (hw : os.width = 0) :
    ((os.str text).endl).out = os.out ++ text.toList ++ ['\n'] := by
  simp [OStream.str, OStream.put, OStream.endl, hw, pad_zero]

/-- Text written by `searchRestaurantByName`: the prompt, one block for every
matching record in file order, and the closing line when nothing matched. -/
theorem searchRestaurantByName_out (os : OStream) (rs : List Restaurant) (t : List Char) :
    (searchRestaurantByName os rs t).out =
      (os.str "Enter restaurant to search for: ").out ++
        ((rs.filter (nameMatches t)).map (matchText os.left)).flatten ++
        (if rs.any (nameMatches t) = true then []
          else "No matching restaurants found.".toList ++ ['\n']) := by
  have hw : (os.str "Enter restaurant to search for: ").width = 0 := by
    simp [OStream.str, OStream.put]
  have hl : (os.str "Enter restaurant to search for: ").left = os.left := by
    simp [OStream.str, OStream.put]
  obtain ⟨i1, i2, i3⟩ := foldl_searchStep t rs (false, os.str "Enter restaurant to search for: ") hw
  simp only [Bool.false_or] at i1 i2 i3
  unfold searchRestaurantByName
  simp only []
  rw [i1]
  cases hany : rs.any (nameMatches t)
  · rw [if_pos rfl, str_endl_out _ _ i3, i2, hl]
    simp
  · rw [if_neg (by decide), i2, hl]
    simp

/-- Lower-casing twice is lower-casing once. -/
theorem toLower_toLower (c : Char) : c.toLower.toLower = c.toLower := by
  by_cases h : c.toNat ≥ 65 ∧ c.toNat ≤ 90
  · have hc : c = Char.ofNat c.toNat := (Char.ofNat_toNat c).symm
    obtain ⟨h1, h2⟩ := h
    generalize c.toNat = n at hc h1 h2
    subst hc
    interval_cases n <;> decide
  · have : c.toLower = c := by
      unfold Char.toLower
      simp only [h, if_false]
    rw [this, this]

/-- Claim C15: the search writes one block for exactly the records whose lower-cased
name contains the lower-cased search text as a contiguous run of characters, in file
order and each once; "joe" matches both "Joe's Diner" and "JOE'S GRILL", and changing
the letter case of the search text never changes which records match. -/
theorem C15_search_matches (os : OStream) (rs : List Restaurant) (t : List Char) :
    (searchRestaurantByName os rs t).out =
      (os.str "Enter restaurant to search for: ").out ++
        ((rs.filter (nameMatches t)).map (matchText os.left)).flatten ++
        (if rs.any (nameMatches t) = true then []
          else "No matching restaurants found.".toList ++ ['\n']) ∧
    (rs.filter (nameMatches t)).Sublist rs ∧
    (∀ r : Restaurant, nameMatches t r = true ↔
      transformToLower t <:+: transformToLower r.name) ∧
    (∀ (u : List Char) (r : Restaurant), transformToLower u = transformToLower t →
      nameMatches u r = nameMatches t r) ∧
    (∀ r : Restaurant, nameMatches (t.map Char.toUpper) r = nameMatches t r ∧
      nameMatches (t.map Char.toLower) r = nameMatches t r) ∧
    nameMatches "joe".toList sampleDiner = true ∧
    nameMatches "joe".toList sampleGrill = true ∧
    nameMatches "joe".toList sampleOther = false ∧
    [sampleDiner, sampleOther, sampleGrill].filter (nameMatches "JOE".toList) =
      [sampleDiner, sampleGrill] := by
  have hcase : ∀ (u : List Char) (r : Restaurant), transformToLower u = transformToLower t →
      nameMatches u r = nameMatches t r := by
    intro u r e
    unfold nameMatches
    rw [e]
  refine ⟨searchRestaurantByName_out os rs t, List.filter_sublist rs, nameMatches_iff t, hcase,
    ?_, by decide, by decide, by decide, by decide⟩
  intro r
  constructor
  · apply hcase
    simp [transformToLower, Function.comp_def, toLower_toUpper]
  · apply hcase
    simp [transformToLower, Function.comp_def, toLower_toLower]

/-- Claim C16: the search writes the line "No matching restaurants found." exactly
when no record matches the search text, in particular for every search text when
there are no records, and never together with a block for a matching record. -/
theorem C16_no_match_indication (os : OStream) (rs : List Restaurant) (t : List Char) :
    ((searchRestaurantByName os rs t).out =
        (os.str "Enter restaurant to search for: ").out ++
          ((rs.filter (nameMatches t)).map (matchText os.left)).flatten ++
          ("No matching restaurants found.".toList ++ ['\n']) ↔
      ∀ r ∈ rs, nameMatches t r = false) ∧
    ((searchRestaurantByName os rs t).out =
        (os.str "Enter restaurant to search for: ").out ++
          ((rs.filter (nameMatches t)).map (matchText os.left)).flatten ↔
      ∃ r ∈ rs, nameMatches t r = true) ∧
    ((∀ r ∈ rs, nameMatches t r = false) →
      (searchRestaurantByName os rs t).out =
        (os.str "Enter restaurant to search for: ").out ++
          ("No matching restaurants found.".toList ++ ['\n'])) ∧
    ((∃ r ∈ rs, nameMatches t r = true) →
      ((rs.filter (nameMatches t)).map (matchText os.left)).flatten ≠ []) ∧
    (searchRestaurantByName os [] t).out =
      (os.str "Enter restaurant to search for: ").out ++
        ("No matching restaurants found.".toList ++ ['\n']) := by
  have hout := searchRestaurantByName_out os rs t
  have hnm : "No matching restaurants found.".toList ++ ['\n'] ≠ [] := by decide
  have hany : rs.any (nameMatches t) = true ↔ ∃ r ∈ rs, nameMatches t r = true := by
    simp [List.any_eq_true]
  have hnone : (¬ ∃ r ∈ rs, nameMatches t r = true) ↔ ∀ r ∈ rs, nameMatches t r = false := by
    simp
  refine ⟨?_, ?_, ?_, ?_, ?_⟩
  · rw [hout, ← hnone, ← hany]
    by_cases h : rs.any (nameMatches t) = true
    · rw [if_pos h]
      simp only [h, not_true_eq_false, iff_false, List.append_nil]
      intro e
      exact hnm (List.self_eq_append_right.mp e)
    · rw [if_neg h]
      simp [h]
  · rw [hout, ← hany]
    by_cases h : rs.any (nameMatches t) = true
    · rw [if_pos h]
      simp [h]
    · rw [if_neg h]
      constructor
      · intro e
        exact absurd (List.self_eq_append_right.mp e.symm) hnm
      · intro h2
        exact absurd h2 h
  · intro hall
    have hf : rs.filter (nameMatches t) = [] := by
      rw [List.filter_eq_nil_iff]
      intro r hr
      rw [hall r hr]
      decide
    have ha : ¬ rs.any (nameMatches t) = true := by
      rw [hany, hnone]
      exact hall
    rw [hout, hf, if_neg ha]
    simp
  · rintro ⟨r, hr, hm⟩
    have hmem : r ∈ rs.filter (nameMatches t) := List.mem_filter.mpr ⟨hr, hm⟩
    intro hnil
    have hall := List.flatten_eq_nil_iff.mp hnil (matchText os.left r)
      (List.mem_map.mpr ⟨r, hmem, rfl⟩)
    have : (matchText os.left r).length = 0 := by rw [hall]; rfl
    simp [matchText] at this
  · rw [searchRestaurantByName_out]
    simp

/-! ### Round trip of dates -/

/-- Extraction of an `int` from a run of digits whose value is in range, followed by
text that does not start with a digit. -/
theorem extractInt_digits (ds rest : List Char) (hne : ds ≠ [])
    (hall : ∀ c ∈ ds, c.isDigit = true) (hn : (digitsVal ds : Int) ≤ INT_MAX)
    (hrest : ∀ c cs, rest = c :: cs → c.isDigit = false) :
    extractInt (ds ++ rest) = some ((digitsVal ds : Int), rest) := by
  have htake : (ds ++ rest).takeWhile Char.isDigit = ds := by
    rw [List.takeWhile_append_of_pos hall]
    cases rest with
    | nil => simp
    | cons c cs => simp [hrest c cs rfl]
  have hdrop : (ds ++ rest).dropWhile Char.isDigit = rest := by
    rw [List.dropWhile_append_of_pos hall]
    cases rest with
    | nil => simp
    | cons c cs => simp [hrest c cs rfl]
  have hdigits : extractDigits false (ds ++ rest) = some ((digitsVal ds : Int), rest) := by
    unfold extractDigits
    simp only [htake, hdrop, hne, if_false]
    have hmin : INT_MIN ≤ (digitsVal ds : Int) := by unfold INT_MIN; omega
    simp [hmin, hn]
  cases hds : ds with
  | nil => exact absurd hds hne
  | cons c cs =>
    have hc : c.isDigit = true := hall c (by rw [hds]; exact List.mem_cons_self c cs)
    obtain ⟨hsp, hminus, hplus⟩ := digit_not_space_sign c hc
    rw [hds] at hdigits
    unfold extractInt
    simp only [List.cons_append, List.dropWhile_cons, hsp, if_false, hminus, hplus,
      Bool.false_eq_true]
    exact hdigits

/-- Value of a two-digit text. -/
theorem digitsVal_two (a b : Nat) (ha : a < 10) (hb : b < 10) :
    digitsVal [digitChar a, digitChar b] = a * 10 + b := by
  simp [digitsVal, digitVal_digitChar a ha, digitVal_digitChar b hb]

/-- Value of a four-digit text. -/
theorem digitsVal_four (a b c e : Nat) (ha : a < 10) (hb : b < 10) (hc : c < 10) (he : e < 10) :
    digitsVal [digitChar a, digitChar b, digitChar c, digitChar e] =
      ((a * 10 + b) * 10 + c) * 10 + e := by
  simp [digitsVal, digitVal_digitChar a ha, digitVal_digitChar b hb, digitVal_digitChar c hc,
    digitVal_digitChar e he]

/-- The zero-padded date text is parsed to its month, day and year. -/
theorem parseDate_zeroPadded (m d y : Nat) (hm : m < 100) (hd : d < 100) (hy : y < 10000) :
    parseDate (zeroPaddedDateText m d y) = some (Date.mk (d : Int) (m : Int) (y : Int)) := by
  have hdash : ∀ (t : List Char) c cs, '-' :: t = c :: cs → c.isDigit = false := by
    intro t c cs e
    have : c = '-' := by injection e with e1 _; exact e1.symm
    rw [this]; decide
  have dm := digitsVal_two (m / 10) (m % 10) (by omega) (by omega)
  have dd := digitsVal_two (d / 10) (d % 10) (by omega) (by omega)
  have dy := digitsVal_four (y / 1000) (y / 100 % 10) (y / 10 % 10) (y % 10) (by omega)
    (by omega) (by omega) (by omega)
  have vm : m / 10 * 10 + m % 10 = m := by omega
  have vd : d / 10 * 10 + d % 10 = d := by omega
  have vy : ((y / 1000 * 10 + y / 100 % 10) * 10 + y / 10 % 10) * 10 + y % 10 = y := by omega
  rw [vm] at dm
  rw [vd] at dd
  rw [vy] at dy
  have two : ∀ a b : Nat, a < 10 → b < 10 →
      ∀ c ∈ [digitChar a, digitChar b], c.isDigit = true := by
    intro a b ha hb c hc
    simp only [List.mem_cons, List.mem_singleton, List.not_mem_nil, or_false] at hc
    rcases hc with e | e <;> rw [e]
    · exact isDigit_digitChar a ha
    · exact isDigit_digitChar b hb
  have four : ∀ c ∈ [digitChar (y / 1000), digitChar (y / 100 % 10), digitChar (y / 10 % 10),
      digitChar (y % 10)], c.isDigit = true := by
    intro c hc
    simp only [List.mem_cons, List.mem_singleton, List.not_mem_nil, or_false] at hc
    rcases hc with e | e | e | e <;> rw [e] <;> apply isDigit_digitChar <;> omega
  have e1 := extractInt_digits [digitChar (m / 10), digitChar (m % 10)]
    ('-' :: [digitChar (d / 10), digitChar (d % 10), '-', digitChar (y / 1000),
      digitChar (y / 100 % 10), digitChar (y / 10 % 10), digitChar (y % 10)])
    (by simp) (two _ _ (by omega) (by omega)) (by rw [dm]; unfold INT_MAX; omega) (hdash _)
  have e2 := extractInt_digits [digitChar (d / 10), digitChar (d % 10)]
    ('-' :: [digitChar (y / 1000), digitChar (y / 100 % 10), digitChar (y / 10 % 10),
      digitChar (y % 10)])
    (by simp) (two _ _ (by omega) (by omega)) (by rw [dd]; unfold INT_MAX; omega) (hdash _)
  have e3 := extractInt_digits [digitChar (y / 1000), digitChar (y / 100 % 10),
    digitChar (y / 10 % 10), digitChar (y % 10)] [] (by simp) four
    (by rw [dy]; unfold INT_MAX; omega) (fun c cs e => by cases e)
  rw [dm] at e1
  rw [dd] at e2
  rw [dy, List.append_nil] at e3
  have c1 : ∀ t : List Char, extractChar ('-' :: t) = some ('-', t) := by
    intro t
    simp [extractChar, List.dropWhile_cons, isSpace]
  simp only [List.cons_append, List.nil_append] at e1 e2
  unfold parseDate zeroPaddedDateText
  simp [e1, e2, e3, c1]

/-- A number below 100 printed in a zero-filled, right-adjusted field of width two. -/
theorem pad_two_digits (n : Nat) (h : n < 100) :
    pad 2 '0' false (showInt (n : Int)) = [digitChar (n / 10), digitChar (n % 10)] := by
  rw [showInt_natCast]
  by_cases h10 : n < 10
  · rw [decimal_small n h10]
    have e1 : n / 10 = 0 := by omega
    have e2 : n % 10 = n := by omega
    rw [e1, e2]
    simp [pad]
    decide
  · rw [decimal_large n (by omega), decimal_small (n / 10) (by omega)]
    simp [pad]

/-- A four-digit number printed without a field width. -/
theorem showInt_four_digits (y : Nat) (h1 : 1000 ≤ y) (h2 : y ≤ 9999) :
    showInt (y : Int) = [digitChar (y / 1000), digitChar (y / 100 % 10),
      digitChar (y / 10 % 10), digitChar (y % 10)] := by
  rw [showInt_natCast, decimal_large y (by omega), decimal_large (y / 10) (by omega),
    decimal_large (y / 10 / 10) (by omega), decimal_small (y / 10 / 10 / 10) (by omega)]
  have e1 : y / 10 / 10 / 10 = y / 1000 := by omega
  have e2 : y / 10 / 10 % 10 = y / 100 % 10 := by omega
  rw [e1, e2]
  simp

/-- No comma occurs in a zero-padded date text. -/
theorem comma_not_mem_zeroPadded (m d y : Nat) (hm : m < 100) (hd : d < 100) (hy : y < 10000) :
    ',' ∉ zeroPaddedDateText m d y := by
  have hdig : ∀ n, n < 10 → ',' ≠ digitChar n := by
    intro n hn e
    have := isDigit_digitChar n hn
    rw [← e] at this
    exact absurd this (by decide)
  intro h
  simp only [zeroPaddedDateText, List.mem_cons, List.mem_singleton, List.not_mem_nil,
    or_false] at h
  rcases h with h | h | h | h | h | h | h | h | h | h
  · exact hdig _ (by omega) h
  · exact hdig _ (by omega) h
  · exact absurd h (by decide)
  · exact hdig _ (by omega) h
  · exact hdig _ (by omega) h
  · exact absurd h (by decide)
  · exact hdig _ (by omega) h
  · exact hdig _ (by omega) h
  · exact hdig _ (by omega) h
  · exact hdig _ (by omega) h

/-- The date of the name search display, for a stream in right adjustment, is the
zero-padded date text. -/
theorem rendered_date_eq (m d y : Nat) (hm : m < 100) (hd : d < 100)
    (hy1 : 1000 ≤ y) (hy2 : y ≤ 9999) :
    pad 2 '0' false (showInt (m : Int)) ++ "-".toList ++ pad 2 '0' false (showInt (d : Int)) ++
      "-".toList ++ showInt (y : Int) = zeroPaddedDateText m d y := by
  rw [pad_two_digits m hm, pad_two_digits d hd, showInt_four_digits y hy1 hy2]
  rfl

/-- Round trip of dates on a stream in right adjustment. For every month 1..12, day
1..31 and four-digit year, a six-field line whose date field is the zero-padded text
MM-DD-YYYY loads to a record which the name search, on a stream that is not in left
adjustment, displays with exactly that date text. -/
theorem date_round_trip_right_adjusted (os : OStream) (m d y : Nat)
    (name address riskStr result neighborhood : List Char)
    (hm : 1 ≤ m ∧ m ≤ 12) (hd : 1 ≤ d ∧ d ≤ 31) (hy : 1000 ≤ y ∧ y ≤ 9999)
    (h1 : ',' ∉ name) (h2 : ',' ∉ address) (h4 : ',' ∉ riskStr) (h5 : ',' ∉ result)
    (hne : neighborhood ≠ []) (hnl : '\n' ∉ neighborhood) (hleft : os.left = false) :
    load_data (some [name ++ ',' :: (address ++ ',' :: (zeroPaddedDateText m d y ++ ',' ::
      (riskStr ++ ',' :: (result ++ ',' :: neighborhood))))]) =
      [Restaurant.mk name address (Date.mk (d : Int) (m : Int) (y : Int))
        (riskStr.headD (Char.ofNat 0)) result neighborhood] ∧
    (searchRestaurantByName os
      (load_data (some [name ++ ',' :: (address ++ ',' :: (zeroPaddedDateText m d y ++ ',' ::
        (riskStr ++ ',' :: (result ++ ',' :: neighborhood))))])) name).out =
      (os.str "Enter restaurant to search for: ").out ++
        ("Restaurant: ".toList ++ name ++ ['\n'] ++
          "Address: ".toList ++ address ++ ['\n'] ++
          "Inspection Date: ".toList ++ zeroPaddedDateText m d y ++ ['\n'] ++
          "Inspection Result: ".toList ++ result ++ ['\n'] ++ ['\n']) ∧
    pad 2 '0' false (showInt (m : Int)) ++ "-".toList ++ pad 2 '0' false (showInt (d : Int)) ++
      "-".toList ++ showInt (y : Int) = zeroPaddedDateText m d y := by
  have hload := load_data_line name address (zeroPaddedDateText m d y) riskStr result
    neighborhood (Date.mk (d : Int) (m : Int) (y : Int)) h1 h2
    (comma_not_mem_zeroPadded m d y (by omega) (by omega) (by omega)) h4 h5 hne hnl
    (parseDate_zeroPadded m d y (by omega) (by omega) (by omega))
  have hrender := rendered_date_eq m d y (by omega) (by omega) hy.1 hy.2
  refine ⟨hload, ?_, hrender⟩
  rw [hload, searchRestaurantByName_out]
  have hmatch : nameMatches name (Restaurant.mk name address
      (Date.mk (d : Int) (m : Int) (y : Int)) (riskStr.headD (Char.ofNat 0)) result
      neighborhood) = true :=
    (nameMatches_iff _ _).mpr (List.infix_refl _)
  have htext : matchText false (Restaurant.mk name address
      (Date.mk (d : Int) (m : Int) (y : Int)) (riskStr.headD (Char.ofNat 0)) result
      neighborhood) =
      "Restaurant: ".toList ++ name ++ ['\n'] ++
          "Address: ".toList ++ address ++ ['\n'] ++
          "Inspection Date: ".toList ++ zeroPaddedDateText m d y ++ ['\n'] ++
          "Inspection Result: ".toList ++ result ++ ['\n'] ++ ['\n'] := by
    unfold matchText
    rw [← hrender]
    simp only [List.append_assoc]
  simp only [List.filter_cons, hmatch, if_true, List.filter_nil, List.map_cons, List.map_nil,
    List.flatten_cons, List.flatten_nil, List.append_nil, List.any_cons, List.any_nil,
    Bool.or_false, hleft, htext]

/-- The round trip on a fresh stream for the date 05-07-2022. -/
theorem date_round_trip_right_adjusted_example :
    zeroPaddedDateText 5 7 2022 = "05-07-2022".toList ∧
    load_data (some ["Joes Diner,123 Main St,05-07-2022,H,Pass,Downtown".toList]) =
      [Restaurant.mk "Joes Diner".toList "123 Main St".toList (Date.mk 7 5 2022) 'H'
        "Pass".toList "Downtown".toList] ∧
    pad 2 '0' false (showInt 5) ++ "-".toList ++ pad 2 '0' false (showInt 7) ++
      "-".toList ++ showInt 2022 = "05-07-2022".toList :=
  ⟨by decide,
    (date_round_trip_right_adjusted OStream.initial 5 7 2022 "Joes Diner".toList "123 Main St".toList
      "H".toList "Pass".toList "Downtown".toList (by decide) (by decide) (by decide)
      (by decide) (by decide) (by decide) (by decide) (by decide) (by decide) (by decide)).1,
    by decide⟩

/-! ### Rounding to binary64 -/

/-- Rounding to the nearest integer moves a number by at most one half. -/
theorem roundHalfEven_err (q : ℚ) : |((roundHalfEven q : Int) : ℚ) - q| ≤ 1 / 2 := by
  have h1 : ((⌊q⌋ : Int) : ℚ) ≤ q := Int.floor_le q
  have h2 : q < ((⌊q⌋ : Int) : ℚ) + 1 := Int.lt_floor_add_one q
  unfold roundHalfEven
  split_ifs with a b c
  · rw [abs_le]; constructor <;> linarith
  · push_cast; rw [abs_le]; constructor <;> linarith
  · rw [abs_le]; constructor <;> linarith
  · push_cast; rw [abs_le]; constructor <;> linarith

/-- An integer is its own rounding. -/
theorem roundHalfEven_intCast (z : Int) : roundHalfEven (z : ℚ) = z := by
  unfold roundHalfEven
  simp

/-- The exponent computed by `floorLog2` brackets the quotient between two
consecutive powers of two. -/
theorem floorLog2_spec (n d : Nat) (hn : 0 < n) (hd : 0 < d) :
    (2 : ℚ) ^ (floorLog2 n d) ≤ (n : ℚ) / d ∧ (n : ℚ) / d < (2 : ℚ) ^ (floorLog2 n d + 1) := by
  have a1 : 2 ^ n.log2 ≤ n := Nat.log2_self_le (by omega)
  have a2 : n < 2 ^ (n.log2 + 1) := Nat.lt_log2_self
  have b1 : 2 ^ d.log2 ≤ d := Nat.log2_self_le (by omega)
  have b2 : d < 2 ^ (d.log2 + 1) := Nat.lt_log2_self
  have qa1 : (2 : ℚ) ^ n.log2 ≤ n := by exact_mod_cast a1
  have qa2 : (n : ℚ) < 2 ^ (n.log2 + 1) := by exact_mod_cast a2
  have qb1 : (2 : ℚ) ^ d.log2 ≤ d := by exact_mod_cast b1
  have qb2 : (d : ℚ) < 2 ^ (d.log2 + 1) := by exact_mod_cast b2
  have hdq : (0 : ℚ) < d := by exact_mod_cast hd
  have hnq : (0 : ℚ) < n := by exact_mod_cast hn
  have pa : (0 : ℚ) < 2 ^ n.log2 := by positivity
  have pb : (0 : ℚ) < 2 ^ d.log2 := by positivity
  have z1 : (2 : ℚ) ^ ((n.log2 : Int) - (d.log2 : Int)) = 2 ^ n.log2 / 2 ^ d.log2 := by
    rw [zpow_sub₀ (by norm_num : (2 : ℚ) ≠ 0), zpow_natCast, zpow_natCast]
  have z2 : (2 : ℚ) ^ ((n.log2 : Int) - (d.log2 : Int) + 1) = 2 ^ (n.log2 + 1) / 2 ^ d.log2 := by
    rw [zpow_add_one₀ (by norm_num : (2 : ℚ) ≠ 0), z1, pow_succ]
    ring
  have z3 : (2 : ℚ) ^ ((n.log2 : Int) - (d.log2 : Int) - 1) = 2 ^ n.log2 / 2 ^ (d.log2 + 1) := by
    rw [zpow_sub_one₀ (by norm_num : (2 : ℚ) ≠ 0), z1, pow_succ]
    field_simp
  unfold floorLog2
  by_cases hc : d * 2 ^ n.log2 ≤ n * 2 ^ d.log2
  · have hcq : (d : ℚ) * 2 ^ n.log2 ≤ n * 2 ^ d.log2 := by exact_mod_cast hc
    rw [if_pos hc, z1, z2]
    constructor
    · rw [div_le_div_iff₀ pb hdq]
      linarith
    · rw [div_lt_div_iff₀ hdq pb]
      calc (n : ℚ) * 2 ^ d.log2 < 2 ^ (n.log2 + 1) * 2 ^ d.log2 := by
            apply mul_lt_mul_of_pos_right qa2 pb
        _ ≤ 2 ^ (n.log2 + 1) * d := by
            apply mul_le_mul_of_nonneg_left qb1 (by positivity)
  · have hcq : (n : ℚ) * 2 ^ d.log2 < d * 2 ^ n.log2 := by exact_mod_cast (not_le.mp hc)
    rw [if_neg hc]
    have e : ((n.log2 : Int) - (d.log2 : Int) - 1 + 1) = (n.log2 : Int) - (d.log2 : Int) := by
      omega
    rw [e, z1, z3]
    constructor
    · rw [div_le_div_iff₀ (by positivity) hdq]
      calc (2 : ℚ) ^ n.log2 * d ≤ 2 ^ n.log2 * 2 ^ (d.log2 + 1) := by
            apply mul_le_mul_of_nonneg_left (le_of_lt qb2) (by positivity)
        _ ≤ n * 2 ^ (d.log2 + 1) := by
            apply mul_le_mul_of_nonneg_right qa1 (by positivity)
    · rw [div_lt_div_iff₀ hdq pb]
      linarith

/-- Rounding a positive number in the normal range of binary64 gives a finite value
whose distance from the number is at most the number divided by `2 ^ 53`. -/
theorem round_err (x : ℚ) (hx : 0 < x) (hlo : (2 : ℚ) ^ (-1022 : Int) ≤ x)
    (hhi : x ≤ (2 : ℚ) ^ (1023 : Int)) :
    ∃ y : ℚ, Double.round x = Double.finite y ∧ |y - x| ≤ x / 2 ^ 53 := by
  have hne : x ≠ 0 := ne_of_gt hx
  have hnum : 0 < x.num := Rat.num_pos.mpr hx
  have hnat : 0 < x.num.natAbs := Int.natAbs_pos.mpr (ne_of_gt hnum)
  have hcast : ((x.num.natAbs : Nat) : ℚ) / (x.den : ℚ) = x := by
    have e1 : ((x.num.natAbs : Nat) : Int) = x.num := Int.natAbs_of_nonneg (le_of_lt hnum)
    have e2 : ((x.num.natAbs : Nat) : ℚ) = ((x.num : Int) : ℚ) := by
      rw [Nat.cast_natAbs, abs_of_pos hnum]
    rw [e2]
    exact Rat.num_div_den x
  obtain ⟨s1, s2⟩ := floorLog2_spec x.num.natAbs x.den hnat x.den_pos
  rw [hcast] at s1 s2
  obtain ⟨e, hedef⟩ : ∃ e : Int, e = floorLog2 x.num.natAbs x.den := ⟨_, rfl⟩
  rw [← hedef] at s1 s2
  have two1 : (1 : ℚ) ≤ 2 := by norm_num
  have he : -1022 ≤ e := by
    by_contra hcon
    have h1 : e + 1 ≤ -1022 := by omega
    have h2 : (2 : ℚ) ^ (e + 1) ≤ 2 ^ (-1022 : Int) := zpow_le_zpow_right₀ two1 h1
    linarith
  have hk : max (e - 52) (-1074) = e - 52 := max_eq_left (by omega)
  have hu : (0 : ℚ) < 2 ^ (e - 52) := by positivity
  have hue : (2 : ℚ) ^ (e - 52) = 2 ^ e / 2 ^ 52 := by
    rw [zpow_sub₀ (by norm_num : (2 : ℚ) ≠ 0)]
    norm_cast
  have hux : (2 : ℚ) ^ (e - 52) ≤ x / 2 ^ 52 := by
    rw [hue]
    exact div_le_div_of_nonneg_right s1 (by positivity)
  have herr := roundHalfEven_err (x / 2 ^ (e - 52))
  have hdist : |((roundHalfEven (x / 2 ^ (e - 52)) : Int) : ℚ) * 2 ^ (e - 52) - x| ≤
      x / 2 ^ 53 := by
    have e1 : ((roundHalfEven (x / 2 ^ (e - 52)) : Int) : ℚ) * 2 ^ (e - 52) - x =
        (((roundHalfEven (x / 2 ^ (e - 52)) : Int) : ℚ) - x / 2 ^ (e - 52)) * 2 ^ (e - 52) := by
      field_simp
    rw [e1, abs_mul, abs_of_pos hu]
    calc |((roundHalfEven (x / 2 ^ (e - 52)) : Int) : ℚ) - x / 2 ^ (e - 52)| * 2 ^ (e - 52)
          ≤ 1 / 2 * 2 ^ (e - 52) := mul_le_mul_of_nonneg_right herr (le_of_lt hu)
      _ ≤ 1 / 2 * (x / 2 ^ 52) := mul_le_mul_of_nonneg_left hux (by norm_num)
      _ = x / 2 ^ 53 := by ring
  refine ⟨((roundHalfEven (x / 2 ^ (e - 52)) : Int) : ℚ) * 2 ^ (e - 52), ?_, hdist⟩
  have hbig : ¬ ((2 : ℚ) ^ (1024 : Int) ≤
      |((roundHalfEven (x / 2 ^ (e - 52)) : Int) : ℚ) * 2 ^ (e - 52)|) := by
    intro hcon
    have h3 := abs_le.mp hdist
    have h4 : |((roundHalfEven (x / 2 ^ (e - 52)) : Int) : ℚ) * 2 ^ (e - 52)| ≤
        x + x / 2 ^ 53 := by
      rw [abs_le]
      have : 0 ≤ x / 2 ^ 53 := by positivity
      constructor <;> linarith [h3.1, h3.2]
    have h5 : x / 2 ^ 53 ≤ x := div_le_self (le_of_lt hx) (by norm_num)
    have h6 : (2 : ℚ) ^ (1024 : Int) = 2 * 2 ^ (1023 : Int) := by
      rw [show (1024 : Int) = 1023 + 1 from rfl, zpow_add_one₀ (by norm_num : (2 : ℚ) ≠ 0)]
      ring
    have h7 : x / 2 ^ 53 < x := div_lt_self hx (by norm_num)
    linarith
  unfold Double.round
  simp only [hne, if_false, ← hedef, hk, hbig]

/-- Rounding zero gives zero. -/
theorem round_zero : Double.round 0 = Double.finite 0 := by
  simp [Double.round]

/-- Accuracy of the percentage computed in `double` arithmetic: for counts
`c ≤ t` with `0 < t < 2 ^ 31` the result is a finite value that differs from the
exact percentage `100 * c / t` by at most that percentage divided by `2 ^ 51`. -/
theorem riskPercentage_accuracy (c t : Nat) (hc : c ≤ t) (ht : 0 < t) (ht2 : t < 2147483648) :
    ∃ v : ℚ, riskPercentage (c : Int) (t : Int) = Double.finite v ∧
      |v - 100 * (c : ℚ) / (t : ℚ)| ≤ 100 * (c : ℚ) / (t : ℚ) / 2 ^ 51 := by
  have htq : (0 : ℚ) < t := by exact_mod_cast ht
  have htne : ((t : Int) : ℚ) ≠ 0 := by
    have : (t : ℚ) ≠ 0 := ne_of_gt htq
    simpa using this
  have hdiv : Double.div (Double.ofInt (c : Int)) (Double.ofInt (t : Int)) =
      Double.round ((c : ℚ) / (t : ℚ)) := by
    simp only [Double.ofInt, Double.div, htne, if_false]
    simp
  have hmul : ∀ y : ℚ, Double.mul (Double.finite y) (Double.finite 100) =
      Double.round (y * 100) := fun y => rfl
  unfold riskPercentage
  rw [hdiv]
  by_cases hc0 : c = 0
  · subst hc0
    refine ⟨0, ?_, by simp⟩
    simp only [Nat.cast_zero, zero_div, round_zero, hmul, zero_mul]
  · have hcq : (1 : ℚ) ≤ c := by exact_mod_cast Nat.one_le_iff_ne_zero.mpr hc0
    have hcle : (c : ℚ) ≤ t := by exact_mod_cast hc
    have htlt : (t : ℚ) < 2147483648 := by exact_mod_cast ht2
    have hx : (0 : ℚ) < (c : ℚ) / t := by positivity
    have hx1 : (c : ℚ) / t ≤ 1 := (div_le_one htq).mpr hcle
    have hxlo : (1 : ℚ) / 2147483648 ≤ (c : ℚ) / t := by
      rw [div_le_div_iff₀ (by norm_num) htq]
      nlinarith
    have p1 : (2 : ℚ) ^ (-1022 : Int) ≤ 1 / 2147483648 := by
      have h1 : (2 : ℚ) ^ (-1022 : Int) ≤ 2 ^ (-31 : Int) :=
        zpow_le_zpow_right₀ (by norm_num) (by norm_num)
      have h2 : (2 : ℚ) ^ (-31 : Int) = 1 / 2147483648 := by norm_num [zpow_neg]
      rw [h2] at h1
      exact h1
    have p2 : (256 : ℚ) ≤ 2 ^ (1023 : Int) := by
      have h1 : (2 : ℚ) ^ (8 : Int) ≤ 2 ^ (1023 : Int) :=
        zpow_le_zpow_right₀ (by norm_num) (by norm_num)
      have h2 : (2 : ℚ) ^ (8 : Int) = 256 := by norm_num
      rw [h2] at h1
      exact h1
    have e1 : (100 : ℚ) * c / t = 100 * ((c : ℚ) / t) := by ring
    rw [e1]
    generalize (c : ℚ) / (t : ℚ) = x at hx hx1 hxlo ⊢
    obtain ⟨y1, r1, b1⟩ := round_err x hx (le_trans p1 hxlo)
      (le_trans (by linarith : x ≤ 256) p2)
    have hpow : (2 : ℚ) ^ 53 = 9007199254740992 := by norm_num
    have hpow2 : (2 : ℚ) ^ 51 = 2251799813685248 := by norm_num
    rw [hpow] at b1
    obtain ⟨b1l, b1u⟩ := abs_le.mp b1
    obtain ⟨y2, r2, b2⟩ := round_err (y1 * 100) (by linarith)
      (le_trans p1 (by linarith : 1 / 2147483648 ≤ y1 * 100))
      (le_trans (by linarith : y1 * 100 ≤ 256) p2)
    rw [hpow] at b2
    obtain ⟨b2l, b2u⟩ := abs_le.mp b2
    refine ⟨y2, ?_, ?_⟩
    · rw [r1, hmul, r2]
    · rw [hpow2, abs_le]
      constructor <;> linarith

/-! ### The risk distribution -/

/-- One pass of the counting loop body while the counters stay in the range of `int`. -/
theorem riskStep_eq (st : RiskCounts) (r : Restaurant)
    (h1 : 0 ≤ st.highRiskCount ∧ st.highRiskCount + 1 < 2147483648)
    (h2 : 0 ≤ st.mediumRiskCount ∧ st.mediumRiskCount + 1 < 2147483648)
    (h3 : 0 ≤ st.lowRiskCount ∧ st.lowRiskCount + 1 < 2147483648) :
    riskStep st r = RiskCounts.mk
      (st.highRiskCount + if hasRisk 'H' r = true then 1 else 0)
      (st.mediumRiskCount + if hasRisk 'M' r = true then 1 else 0)
      (st.lowRiskCount + if hasRisk 'L' r = true then 1 else 0) := by
  have w1 := toInt32_of_range (st.highRiskCount + 1) (by omega) (by omega)
  have w2 := toInt32_of_range (st.mediumRiskCount + 1) (by omega) (by omega)
  have w3 := toInt32_of_range (st.lowRiskCount + 1) (by omega) (by omega)
  unfold riskStep hasRisk
  by_cases hH : r.risk = 'H'
  · simp [hH, w1]
  · by_cases hM : r.risk = 'M'
    · simp [hM, w2]
    · by_cases hL : r.risk = 'L'
      · simp [hL, w3]
      · simp [hH, hM, hL]

/-- The three counters after the counting loop, for an arbitrary start. -/
theorem foldl_riskStep (rs : List Restaurant) :
    ∀ st : RiskCounts,
      0 ≤ st.highRiskCount → 0 ≤ st.mediumRiskCount → 0 ≤ st.lowRiskCount →
      st.highRiskCount + rs.length < 2147483648 →
      st.mediumRiskCount + rs.length < 2147483648 →
      st.lowRiskCount + rs.length < 2147483648 →
      rs.foldl riskStep st = RiskCounts.mk
        (st.highRiskCount + (rs.countP (hasRisk 'H') : Nat))
        (st.mediumRiskCount + (rs.countP (hasRisk 'M') : Nat))
        (st.lowRiskCount + (rs.countP (hasRisk 'L') : Nat)) := by
  induction rs with
  | nil => intro st _ _ _ _ _ _; simp
  | cons r rs ih =>
    intro st p1 p2 p3 b1 b2 b3
    simp only [List.length_cons, Nat.cast_add, Nat.cast_one] at b1 b2 b3
    rw [List.foldl_cons, riskStep_eq st r ⟨p1, by omega⟩ ⟨p2, by omega⟩ ⟨p3, by omega⟩]
    rw [ih _ (by dsimp only; split_ifs <;> omega) (by dsimp only; split_ifs <;> omega)
      (by dsimp only; split_ifs <;> omega) (by dsimp only; split_ifs <;> omega)
      (by dsimp only; split_ifs <;> omega) (by dsimp only; split_ifs <;> omega)]
    simp only [List.countP_cons, Nat.cast_add, RiskCounts.mk.injEq]
    refine ⟨?_, ?_, ?_⟩ <;> split_ifs <;> simp <;> omega

/-- The eligible records are those of the three buckets together. -/
theorem countP_eligible (rs : List Restaurant) :
    rs.countP eligibleRisk =
      rs.countP (hasRisk 'H') + rs.countP (hasRisk 'M') + rs.countP (hasRisk 'L') := by
  have d1 : ∀ r, ¬ (hasRisk 'H' r = true ∧ hasRisk 'M' r = true) := by
    intro r h
    simp only [hasRisk, decide_eq_true_eq] at h
    exact absurd (h.1.symm.trans h.2) (by decide)
  have d2 : ∀ r, ¬ ((hasRisk 'H' r || hasRisk 'M' r) = true ∧ hasRisk 'L' r = true) := by
    intro r h
    simp only [hasRisk, Bool.or_eq_true, decide_eq_true_eq] at h
    rcases h.1 with e | e
    · exact absurd (e.symm.trans h.2) (by decide)
    · exact absurd (e.symm.trans h.2) (by decide)
  have e1 := countP_or_disjoint (fun r => hasRisk 'H' r || hasRisk 'M' r) (hasRisk 'L') rs d2
  have e2 := countP_or_disjoint (hasRisk 'H') (hasRisk 'M') rs d1
  rw [← e2, ← e1]
  rfl

/-- Counters and their sum for a record sequence whose length fits in an `int`. -/
theorem riskCounts_eq (rs : List Restaurant) (h : rs.length < 2147483648) :
    riskCounts rs = RiskCounts.mk (rs.countP (hasRisk 'H') : Nat)
      (rs.countP (hasRisk 'M') : Nat) (rs.countP (hasRisk 'L') : Nat) ∧
    totalInspections (riskCounts rs) = (rs.countP eligibleRisk : Nat) := by
  have hl : (rs.length : Int) < 2147483648 := by omega
  have hc := foldl_riskStep rs (RiskCounts.mk 0 0 0) (le_refl _) (le_refl _) (le_refl _)
    (by simpa using hl) (by simpa using hl) (by simpa using hl)
  have hc2 : riskCounts rs = RiskCounts.mk (rs.countP (hasRisk 'H') : Nat)
      (rs.countP (hasRisk 'M') : Nat) (rs.countP (hasRisk 'L') : Nat) := by
    simpa [riskCounts] using hc
  refine ⟨hc2, ?_⟩
  have hle : rs.countP eligibleRisk ≤ rs.length := List.countP_le_length _
  have hsum := countP_eligible rs
  rw [hc2]
  unfold totalInspections
  simp only []
  have w1 := toInt32_of_range
    (((rs.countP (hasRisk 'H') : Nat) : Int) + ((rs.countP (hasRisk 'M') : Nat) : Int))
    (by omega) (by omega)
  rw [w1, toInt32_of_range _ (by omega) (by omega)]
  omega

/-- One line of the risk report: text written and width left behind. -/
theorem printRisk_spec (os : OStream) (label : String) (x : Double) :
    (printRisk os label x).out =
        (os.str label).out ++ showFixed 1 x ++ "%".toList ++ ['\n'] ∧
      (printRisk os label x).width = 0 := by
  simp [printRisk, OStream.str, OStream.put, OStream.endl, OStream.setFixed,
    OStream.setprecision, OStream.double, pad_zero]

/-- Text written by `displayRiskPercentages` in terms of the three percentages. -/
theorem displayRiskPercentages_out (os : OStream) (rs : List Restaurant) :
    (displayRiskPercentages os rs).out =
      (os.str "High Risk: ").out ++
        showFixed 1 (riskPercentage (riskCounts rs).highRiskCount
          (totalInspections (riskCounts rs))) ++ "%".toList ++ ['\n'] ++
        "Medium Risk: ".toList ++
        showFixed 1 (riskPercentage (riskCounts rs).mediumRiskCount
          (totalInspections (riskCounts rs))) ++ "%".toList ++ ['\n'] ++
        "Low Risk: ".toList ++
        showFixed 1 (riskPercentage (riskCounts rs).lowRiskCount
          (totalInspections (riskCounts rs))) ++ "%".toList ++ ['\n'] := by
  unfold displayRiskPercentages
  simp only []
  obtain ⟨a1, a2⟩ := printRisk_spec os "High Risk: "
    (riskPercentage (riskCounts rs).highRiskCount (totalInspections (riskCounts rs)))
  obtain ⟨b1, b2⟩ := printRisk_spec (printRisk os "High Risk: "
    (riskPercentage (riskCounts rs).highRiskCount (totalInspections (riskCounts rs))))
    "Medium Risk: "
    (riskPercentage (riskCounts rs).mediumRiskCount (totalInspections (riskCounts rs)))
  obtain ⟨c1, -⟩ := printRisk_spec (printRisk (printRisk os "High Risk: "
    (riskPercentage (riskCounts rs).highRiskCount (totalInspections (riskCounts rs))))
    "Medium Risk: "
    (riskPercentage (riskCounts rs).mediumRiskCount (totalInspections (riskCounts rs))))
    "Low Risk: "
    (riskPercentage (riskCounts rs).lowRiskCount (totalInspections (riskCounts rs)))
  have s1 : ∀ (o : OStream) (label : String), o.width = 0 →
      (o.str label).out = o.out ++ label.toList := by
    intro o label hw
    simp [OStream.str, OStream.put, hw, pad_zero]
  rw [c1, s1 _ _ b2, b1, s1 _ _ a2, a1]

/-- Claim C11: for a record sequence (of a length that fits in an `int`) with at
least one record of risk 'H', 'M' or 'L', each bucket is counted by exact risk code,
the denominator is the number of records with one of the three codes, and each
percentage is `count / total * 100` evaluated in `double` arithmetic, a finite value
within a relative error of `2 ^ -51` of the exact `100 * count / total`; records with
any other code enter neither count. With 2 'H', 1 'M' and 1 'L' record (and one record
of another code) the values are exactly 50, 25 and 25. -/
theorem C11_risk_percentages (os : OStream) (rs : List Restaurant)
    (hlen : rs.length < 2147483648) (hsome : ∃ r ∈ rs, eligibleRisk r = true) :
    riskCounts rs = RiskCounts.mk (rs.countP (hasRisk 'H') : Nat)
      (rs.countP (hasRisk 'M') : Nat) (rs.countP (hasRisk 'L') : Nat) ∧
    totalInspections (riskCounts rs) = (rs.countP eligibleRisk : Nat) ∧
    (∀ r : Restaurant, eligibleRisk r = true ↔ (r.risk = 'H' ∨ r.risk = 'M' ∨ r.risk = 'L')) ∧
    (displayRiskPercentages os rs).out =
      (os.str "High Risk: ").out ++
        showFixed 1 (riskPercentage (rs.countP (hasRisk 'H') : Nat)
          (rs.countP eligibleRisk : Nat)) ++ "%".toList ++ ['\n'] ++
        "Medium Risk: ".toList ++
        showFixed 1 (riskPercentage (rs.countP (hasRisk 'M') : Nat)
          (rs.countP eligibleRisk : Nat)) ++ "%".toList ++ ['\n'] ++
        "Low Risk: ".toList ++
        showFixed 1 (riskPercentage (rs.countP (hasRisk 'L') : Nat)
          (rs.countP eligibleRisk : Nat)) ++ "%".toList ++ ['\n'] ∧
    (∀ code : Char, code = 'H' ∨ code = 'M' ∨ code = 'L' →
      ∃ v : ℚ, riskPercentage (rs.countP (hasRisk code) : Nat) (rs.countP eligibleRisk : Nat) =
          Double.finite v ∧
        |v - 100 * (rs.countP (hasRisk code) : ℚ) / (rs.countP eligibleRisk : ℚ)| ≤
          100 * (rs.countP (hasRisk code) : ℚ) / (rs.countP eligibleRisk : ℚ) / 2 ^ 51) ∧
    riskPercentage 2 4 = Double.finite 50 ∧ riskPercentage 1 4 = Double.finite 25 := by
  obtain ⟨hc, ht⟩ := riskCounts_eq rs hlen
  have hsum := countP_eligible rs
  have hpos : 0 < rs.countP eligibleRisk := List.countP_pos_iff.mpr hsome
  have hle : rs.countP eligibleRisk ≤ rs.length := List.countP_le_length _
  refine ⟨hc, ht, ?_, ?_, ?_, by decide!, by decide!⟩
  · intro r
    simp [eligibleRisk, hasRisk, or_assoc]
  · rw [displayRiskPercentages_out, ht, hc]
  · intro code hcode
    have hcl : rs.countP (hasRisk code) ≤ rs.countP eligibleRisk := by
      rcases hcode with e | e | e <;> rw [e] <;> omega
    exact riskPercentage_accuracy _ _ hcl hpos (by omega)

/-- Instance of claim C11: two 'H', one 'M', one 'L' and one record of the unknown
code 'X' give 50.0%, 25.0% and 25.0%. -/
theorem C11_risk_percentages_witness :
    (displayRiskPercentages OStream.initial sampleRisks).out =
      "High Risk: 50.0%".toList ++ ['\n'] ++ "Medium Risk: 25.0%".toList ++ ['\n'] ++
        "Low Risk: 25.0%".toList ++ ['\n'] ∧
    riskCounts sampleRisks = RiskCounts.mk 2 1 1 ∧
    totalInspections (riskCounts sampleRisks) = (sampleRisks.countP eligibleRisk : Nat) :=
  ⟨by decide!, by decide,
    (C11_risk_percentages OStream.initial sampleRisks (by decide)
      ⟨sampleWithRisk 'H', by decide, by decide⟩).2.1⟩

/-- Without a record of risk 'H', 'M' or 'L' all three percentages are the invalid
result of `0.0 / 0`. -/
theorem riskPercentage_no_eligible (rs : List Restaurant) (hlen : rs.length < 2147483648)
    (hnone : ∀ r ∈ rs, eligibleRisk r = false) :
    totalInspections (riskCounts rs) = 0 ∧
    riskPercentage (riskCounts rs).highRiskCount (totalInspections (riskCounts rs)) =
      Double.invalid ∧
    riskPercentage (riskCounts rs).mediumRiskCount (totalInspections (riskCounts rs)) =
      Double.invalid ∧
    riskPercentage (riskCounts rs).lowRiskCount (totalInspections (riskCounts rs)) =
      Double.invalid := by
  obtain ⟨hc, ht⟩ := riskCounts_eq rs hlen
  have hsum := countP_eligible rs
  have hz : rs.countP eligibleRisk = 0 := by
    rw [List.countP_eq_zero]
    intro r hr
    rw [hnone r hr]
    decide
  have z1 : rs.countP (hasRisk 'H') = 0 := by omega
  have z2 : rs.countP (hasRisk 'M') = 0 := by omega
  have z3 : rs.countP (hasRisk 'L') = 0 := by omega
  have hnan : riskPercentage 0 0 = Double.invalid := by decide!
  rw [ht, hc, hz, z1, z2, z3]
  exact ⟨rfl, hnan, hnan, hnan⟩

/-- Claim C12 (violated by the code): with no record of risk 'H', 'M' or 'L' the sum
of the counters is zero and each percentage is computed as `0.0 / 0 * 100.0`. The
division by zero is carried out; its result is a NaN, and the report shows the text
of a NaN instead of `0.0` for the empty record sequence of a failed file open and for
a sequence whose only record has another risk code. -/
theorem C12_zero_total_yields_nan :
    load_data none = [] ∧
    totalInspections (riskCounts []) = 0 ∧
    riskPercentage (riskCounts []).highRiskCount (totalInspections (riskCounts [])) =
      Double.nan true ∧
    (displayRiskPercentages OStream.initial (load_data none)).out =
      "High Risk: -nan%".toList ++ ['\n'] ++ "Medium Risk: -nan%".toList ++ ['\n'] ++
        "Low Risk: -nan%".toList ++ ['\n'] ∧
    (displayRiskPercentages OStream.initial (load_data none)).out ≠
      "High Risk: 0.0%".toList ++ ['\n'] ++ "Medium Risk: 0.0%".toList ++ ['\n'] ++
        "Low Risk: 0.0%".toList ++ ['\n'] ∧
    totalInspections (riskCounts [sampleWithRisk 'X']) = 0 ∧
    (displayRiskPercentages OStream.initial [sampleWithRisk 'X']).out =
      "High Risk: -nan%".toList ++ ['\n'] ++ "Medium Risk: -nan%".toList ++ ['\n'] ++
        "Low Risk: -nan%".toList ++ ['\n'] := by
  refine ⟨rfl, by decide, by decide!, by decide!, by decide!, by decide, by decide!⟩

/-! ### Formatting state carried from one report to the next -/

/-- Claim C18 (violated by the code): the manipulators `left` and `setfill('0')` stay
in force on `cout` after a report has returned. Run first, the overall summary of the
sample prints the date of 17 May 2022 as 05-17-2022; run after the neighborhood table
it prints 50-17-2022. Run first, the table pads its columns with blanks; run after the
overall summary it pads them with the digit 0. -/
theorem C18_format_state_leaks :
    emitted OStream.initial (displayOverAllInfo OStream.initial sampleTable) =
      "Number of restaurants: 5".toList ++ ['\n'] ++ "Number that pass: 2".toList ++ ['\n'] ++
        "Most recent passing inspection was of Joes Diner on 05-17-2022".toList ++ ['\n'] ∧
    emitted (displayPassingNumbersByNeighborhood OStream.initial sampleTable)
        (displayOverAllInfo (displayPassingNumbersByNeighborhood OStream.initial sampleTable)
          sampleTable) =
      "Number of restaurants: 5".toList ++ ['\n'] ++ "Number that pass: 2".toList ++ ['\n'] ++
        "Most recent passing inspection was of Joes Diner on 50-17-2022".toList ++ ['\n'] ∧
    emitted OStream.initial (displayPassingNumbersByNeighborhood OStream.initial [sampleOther]) =
      "Neighborhood               Passed Cond. Pass     Failed".toList ++ ['\n'] ++
        "============               ====== ==========     ======".toList ++ ['\n'] ++
        "Downtown                      0          1            0        ".toList ++ ['\n'] ∧
    emitted (displayOverAllInfo OStream.initial [sampleOther])
        (displayPassingNumbersByNeighborhood (displayOverAllInfo OStream.initial [sampleOther])
          [sampleOther]) =
      "Neighborhood               Passed Cond. Pass     Failed".toList ++ ['\n'] ++
        "============               ====== ==========     ======".toList ++ ['\n'] ++
        "Downtown0000000000000000000000000000000001000000000000000000000".toList ++ ['\n'] ∧
    emitted (displayPassingNumbersByNeighborhood OStream.initial [sampleOther])
        (searchRestaurantByName (displayPassingNumbersByNeighborhood OStream.initial [sampleOther])
          [sampleOther] "moe".toList) ≠
      emitted OStream.initial (searchRestaurantByName OStream.initial [sampleOther] "moe".toList) := by
  refine ⟨by decide, by decide!, by decide!, by decide!, by decide!⟩

/-- The risk report does not read the fill, adjustment or precision it finds: started
without a pending width it appends the same text as on a fresh stream. -/
theorem displayRiskPercentages_stateless (os : OStream) (rs : List Restaurant)
    (hw : os.width = 0) :
    emitted os (displayRiskPercentages os rs) =
      emitted OStream.initial (displayRiskPercentages OStream.initial rs) := by
  have s1 : ∀ (o : OStream) (label : String), o.width = 0 →
      (o.str label).out = o.out ++ label.toList := by
    intro o label h
    simp [OStream.str, OStream.put, h, pad_zero]
  unfold emitted
  rw [displayRiskPercentages_out, displayRiskPercentages_out, s1 os _ hw,
    s1 OStream.initial _ rfl]
  simp only [List.append_assoc, List.drop_left]

/-- Claim C17 (violated by the code): the round trip of dates holds only while `cout`
is in right adjustment. The line with the date text 05-07-2022 loads to the record of
7 May 2022; a name search run first displays the date as 05-07-2022, but a name search
run after the neighborhood table, which leaves `left` in force, displays the same
record with the date 50-70-2022. -/
theorem C17_round_trip_fails_after_table :
    zeroPaddedDateText 5 7 2022 = "05-07-2022".toList ∧
    load_data (some ["Joes Diner,123 Main St,05-07-2022,H,Pass,Downtown".toList]) =
      [sampleMay] ∧
    emitted OStream.initial (searchRestaurantByName OStream.initial [sampleMay] "joe".toList) =
      "Enter restaurant to search for: ".toList ++
        "Restaurant: Joes Diner".toList ++ ['\n'] ++
        "Address: 123 Main St".toList ++ ['\n'] ++
        "Inspection Date: 05-07-2022".toList ++ ['\n'] ++
        "Inspection Result: Pass".toList ++ ['\n'] ++ ['\n'] ∧
    emitted (displayPassingNumbersByNeighborhood OStream.initial [sampleMay])
        (searchRestaurantByName (displayPassingNumbersByNeighborhood OStream.initial [sampleMay])
          [sampleMay] "joe".toList) =
      "Enter restaurant to search for: ".toList ++
        "Restaurant: Joes Diner".toList ++ ['\n'] ++
        "Address: 123 Main St".toList ++ ['\n'] ++
        "Inspection Date: 50-70-2022".toList ++ ['\n'] ++
        "Inspection Result: Pass".toList ++ ['\n'] ++ ['\n'] ∧
    (displayPassingNumbersByNeighborhood OStream.initial [sampleMay]).left = true ∧
    pad 2 '0' true (showInt 5) ++ "-".toList ++ pad 2 '0' true (showInt 7) ++
      "-".toList ++ showInt 2022 = "50-70-2022".toList := by
  refine ⟨by decide, by decide, by decide!, by decide!, by decide!, by decide⟩

end RestaurantInspections
